import Mathlib

/-!
Verification development for `src/archive.py` of matrix-archiver-sqlite.

The shallow embedding below translates the synchronization core of the
script (`add_devices`, `add_rooms`, the pagination loop, the attachment
fetcher, and the five entity tables) into executable Lean definitions.
Machine-level details are modelled as follows:

* Opaque identifiers (`room_id`, `event_id`, `user_id`, mxc/http URLs) are
  `String`, as in the source schema.
* `datetime.utcnow()` is modelled by a single clock value `Config.now`
  (a `Nat`); `convert_to_iso8601` converts a millisecond epoch value to an
  ISO-8601 string of exactly millisecond precision, which is an injective
  recoding, so the model keeps the millisecond value itself.
* Binary file contents (`bytes`) are `List Nat`.
* The pony ORM `@db_session` transaction discipline is modelled with an
  explicit pair of stores: `c` is the committed database and the pending
  store is the live view; `commit()` copies pending over committed, and an
  uncaught exception rolls the pending store back to the committed one.
  Fallible operations return `Except Unit`.
* A `requests.get` call is modelled by an oracle `Config.fetch`; every
  exception path of the `try` block in lines 296-306 of the source (network
  error, missing or malformed content-length header) is the `netError`
  outcome, and a well-formed reply is `response status reason length bytes`.
* `get_room_events` (source lines 128-143) produces one flat, lazily
  produced stream per room: the client-resident `room.events` followed by
  the backward-paginated chunks.  `RoomInput.events` is that flat stream;
  `RoomInput.streamError` records whether the underlying generator raises
  (a failed `get_room_messages` call) once it is asked past those events.
  `next_event_batch` is the `list(islice(events, 0, 1000))` pull of source
  lines 250 and 332: it returns a full slice when at least `batch_size`
  events remain, returns the remainder when the generator ends normally,
  and raises when the generator raises.
-/

deriving instance DecidableEq for Except

namespace MatrixArchiver

/-- Binary file contents. -/
abbrev Bytes := List Nat

/-- Source line 33: `MAX_FILESIZE = os.environ.get('MAX_FILESIZE', 1099511627776)`.
The model uses the numeric default (1 TiB in bytes). -/
def MAX_FILESIZE : Nat := 1099511627776

/-- Source line 133: `batch_size = 1000`, also the literal 1000 of the
`islice` calls in lines 250 and 332. -/
def batch_size : Nat := 1000

/-- Source line 235: the `[:1000]` slice bounding the known-recent window. -/
def known_recent_window : Nat := 1000

/-- Attachment-describing part of an event's `content` payload, present
exactly when `content["msgtype"]` is `m.file` or `m.image`
(source lines 282-288). -/
structure AttachmentContent where
  body : String
  info_size : Nat
  info_mimetype : Option String
  is_image : Bool
  url : String
  deriving Repr, DecidableEq

/-- A raw event record delivered by the paginator (source lines 255-269).
`content_attachment` is `some` exactly when the content marks the event as
a file or image attachment. -/
structure RawEvent where
  event_id : String
  sender : String
  type : String
  origin_server_ts : Nat
  content_attachment : Option AttachmentContent
  deriving Repr, DecidableEq

/-- Row of the `Room` table (source lines 41-48). -/
structure RoomRow where
  room_id : String
  display_name : String
  topic : Option String
  retrieval_ts : Nat
  deriving Repr, DecidableEq

/-- Row of the `Member` table (source lines 50-57). -/
structure MemberRow where
  room_id : String
  display_name : String
  user_id : String
  avatar_url : Option String
  retrieval_ts : Nat
  deriving Repr, DecidableEq

/-- Row of the `Device` table (source lines 59-66). -/
structure DeviceRow where
  user_id : String
  device_id : String
  display_name : Option String
  last_seen_ts : Option Nat
  last_seen_ip : Option String
  retrieval_ts : Nat
  deriving Repr, DecidableEq

/-- Row of the `Event` table (source lines 68-78).  `raw_json` is the
serialized raw record, carried for fidelity only, and is omitted. -/
structure EventRow where
  room_id : String
  content_attachment : Option AttachmentContent
  sender : String
  type : String
  event_id : String
  origin_server_ts : Nat
  retrieval_ts : Nat
  deriving Repr, DecidableEq

/-- Row of the `File` table (source lines 80-92). -/
structure FileRow where
  filename : String
  size : Nat
  mime_type : Option String
  is_image : Bool
  is_cached : Bool
  data : Option Bytes
  fetch_url_http : String
  fetch_url_matrix : String
  last_fetch_status : String
  last_fetch_ts : Nat
  retrieval_ts : Nat
  deriving Repr, DecidableEq

/-- The five tables of the relational store. -/
structure Store where
  rooms : List RoomRow
  members : List MemberRow
  devices : List DeviceRow
  events : List EventRow
  files : List FileRow
  deriving Repr, DecidableEq

/-- The empty database. -/
def Store.empty : Store := ⟨[], [], [], [], []⟩

/-- Outcome of `requests.get(http_download_url, stream=True)` together with
reading its headers and body (source lines 297-301).  `netError` covers
every exception path of the surrounding `try`. -/
inductive FetchResult where
  | netError
  | response (status_code : Nat) (reason : String) (content_length : Nat) (content : Bytes)
  deriving Repr, DecidableEq

/-- Run-wide environment: the exclusion list (source lines 28-32), the
`client.api.get_download_url` resolver (line 288), the network oracle for
`requests.get` (line 297), and the run's clock. -/
structure Config where
  excluded_room_ids : List String
  get_download_url : String → String
  fetch : String → FetchResult
  now : Nat

/-- One entry of `client.api.get_devices()["devices"]` (source lines 154-159). -/
structure DeviceInput where
  user_id : String
  device_id : String
  display_name : Option String
  last_seen_ts : Option Nat
  last_seen_ip : Option String
  deriving Repr, DecidableEq

/-- One member returned by `room.get_joined_members()` (source lines 212-215). -/
structure MemberInput where
  displayname : String
  user_id : String
  avatar_url : Option String
  deriving Repr, DecidableEq

/-- Remote-side view of one room, as consumed by `add_rooms`
(source lines 181-233): metadata, the joined-member list, and the flat
event stream produced by `get_room_events`.  `topic` is the result after
the `try`/`except` of lines 190-193 (`none` models the 404 path).
`streamError` is true when the underlying pagination raises once the
stream is asked past `events`. -/
structure RoomInput where
  room_id : String
  display_name : String
  topic : Option String
  joined_members : List MemberInput
  events : List RawEvent
  streamError : Bool
  deriving Repr, DecidableEq

/-- Source lines 147-148: millisecond-epoch timestamps are recoded to
ISO-8601 strings at millisecond precision, an injective recoding; the
model keeps the millisecond value. -/
def convert_to_iso8601 (ts : Nat) : Nat := ts

/-- `Device.get(user_id=..., device_id=...)` (source line 160). -/
def Device.get (s : Store) (user_id device_id : String) : Option DeviceRow :=
  s.devices.find? (fun d => d.user_id == user_id && d.device_id == device_id)

/-- `Room.get(room_id=...)` (source line 197). -/
def Room.get (s : Store) (room_id : String) : Option RoomRow :=
  s.rooms.find? (fun r => r.room_id == room_id)

/-- `Member.get(room=r, user_id=...)` (source line 217); the `Room` entity
reference is keyed by its unique `room_id`. -/
def Member.get (s : Store) (r : RoomRow) (user_id : String) : Option MemberRow :=
  s.members.find? (fun m => m.room_id == r.room_id && m.user_id == user_id)

/-- `File.get(fetch_url_matrix=...)` (source line 293). -/
def File.get (s : Store) (fetch_url_matrix : String) : Option FileRow :=
  s.files.find? (fun f => f.fetch_url_matrix == fetch_url_matrix)

/-- `item.flush()` for a new `Device` row (source line 170): the row is
written unless the `device_id` uniqueness constraint (source line 62) is
violated. -/
def deviceFlush (s : Store) (d : DeviceRow) : Except Unit Store :=
  if d.device_id ∈ s.devices.map (·.device_id) then .error ()
  else .ok { s with devices := s.devices ++ [d] }

/-- `item.flush()` for a new `Event` row (source line 279): the row is
written unless the `event_id` uniqueness constraint (source line 74) is
violated. -/
def eventFlush (s : Store) (e : EventRow) : Except Unit Store :=
  if e.event_id ∈ s.events.map (·.event_id) then .error ()
  else .ok { s with events := s.events ++ [e] }

/-- `file_entry.flush()` for a new `File` row (source line 326): the row is
written unless one of the `fetch_url_http` / `fetch_url_matrix` uniqueness
constraints (source lines 88-89) is violated. -/
def fileFlushInsert (s : Store) (f : FileRow) : Except Unit Store :=
  if f.fetch_url_http ∈ s.files.map (·.fetch_url_http)
      ∨ f.fetch_url_matrix ∈ s.files.map (·.fetch_url_matrix) then .error ()
  else .ok { s with files := s.files ++ [f] }

/-- In-place mutation of the `File` row keyed by `fetch_url_matrix`
(source lines 320-326). -/
def updateFile (s : Store) (fetch_url_matrix : String) (g : FileRow → FileRow) : Store :=
  { s with files := s.files.map (fun f =>
      if f.fetch_url_matrix == fetch_url_matrix then g f else f) }

/-- Attachment handling for one newly archived event, source lines 282-326:
look up the `File` row by content reference, attempt the download when the
row is missing or uncached, enforce the size ceiling, then insert a new row
or mutate the existing one. -/
def archive_file (cfg : Config) (p : Store) (att : AttachmentContent) : Except Unit Store :=
  let filename := att.body
  let file_size := att.info_size
  let is_image := att.is_image
  let matrix_download_url := att.url
  let http_download_url := cfg.get_download_url matrix_download_url
  let file_entry := File.get p matrix_download_url
  let attempt : Bool :=
    match file_entry with
    | none => true
    | some f => !f.is_cached
  let out : Option Bytes × Bool × String :=
    if attempt then
      match cfg.fetch http_download_url with
      | .netError => (none, false, "Fail")
      | .response status_code reason content_length content =>
        if content_length < MAX_FILESIZE then
          (some content, true, toString status_code ++ " " ++ reason)
        else
          (none, false, "Fail")
    else (none, false, "Fail")
  let data := out.1
  let is_cached := out.2.1
  let last_fetch_status := out.2.2
  match file_entry with
  | none =>
    fileFlushInsert p
      { filename := filename
        size := file_size
        mime_type := att.info_mimetype
        is_image := is_image
        is_cached := is_cached
        data := data
        fetch_url_http := http_download_url
        fetch_url_matrix := matrix_download_url
        last_fetch_status := last_fetch_status
        last_fetch_ts := cfg.now
        retrieval_ts := cfg.now }
  | some _ =>
    .ok (updateFile p matrix_download_url (fun f =>
      { f with
        data := if data.isSome then data else f.data
        last_fetch_status := last_fetch_status
        last_fetch_ts := cfg.now }))

/-- The `Event` row built at source lines 271-278. -/
def eventToRow (cfg : Config) (room_id : String) (event : RawEvent) : EventRow :=
  { room_id := room_id
    content_attachment := event.content_attachment
    sender := event.sender
    type := event.type
    event_id := event.event_id
    origin_server_ts := event.origin_server_ts
    retrieval_ts := cfg.now }

/-- Mutable state of the per-room event loop: the pending store, the
`stop_on_this_batch` flag (source line 249) and the `new_events_saved`
counter (source line 245). -/
structure BatchState where
  p : Store
  stop_on_this_batch : Bool
  new_events_saved : Nat
  deriving Repr, DecidableEq

/-- Set difference of the incoming batch IDs against the known-recent IDs
(source lines 252-254); membership in the Python set is list membership
here. -/
def batchDiff (event_batch : List RawEvent) (last_event_ids : List String) : List String :=
  (event_batch.map (·.event_id)).filter (fun i => decide (i ∉ last_event_ids))

/-- Rows created from the members of a batch that survive the set
difference, in delivery order (the inserts of source lines 255-279). -/
def newRowsOf (cfg : Config) (rid : String) (lastIds : List String)
    (batch : List RawEvent) : List EventRow :=
  (batch.filter (fun e => decide (e.event_id ∉ lastIds))).map (eventToRow cfg rid)

/-- Processing of one event of the current batch, source lines 255-326:
skip (and mark the batch terminal) when the ID is not in the set
difference, otherwise archive the event and run attachment handling. -/
def archive_event (cfg : Config) (r : RoomRow) (diff : List String)
    (st : BatchState) (event : RawEvent) : Except Unit BatchState :=
  if event.event_id ∉ diff then
    .ok { st with stop_on_this_batch := true }
  else
    match eventFlush st.p (eventToRow cfg r.room_id event) with
    | .error _ => .error ()
    | .ok p' =>
      match event.content_attachment with
      | none =>
        .ok { p := p', stop_on_this_batch := st.stop_on_this_batch,
              new_events_saved := st.new_events_saved + 1 }
      | some att =>
        match archive_file cfg p' att with
        | .error _ => .error ()
        | .ok p'' =>
          .ok { p := p'', stop_on_this_batch := st.stop_on_this_batch,
                new_events_saved := st.new_events_saved + 1 }

/-- Body of the `for event in event_batch` loop for one pulled batch
(source lines 251-326). -/
def archive_event_batch (cfg : Config) (r : RoomRow) (last_event_ids : List String)
    (st : BatchState) (event_batch : List RawEvent) : Except Unit BatchState :=
  let diff := batchDiff event_batch last_event_ids
  event_batch.foldlM (archive_event cfg r diff) st

/-- `list(islice(events, 0, 1000))` over the flat stream (source lines 250
and 332).  When at least `batch_size` events remain, `islice` stops without
asking the generator for more; a shorter prefix means the generator is
driven to its end, which raises if a pagination request fails. -/
def next_event_batch (events : List RawEvent) (streamError : Bool) :
    Except Unit (List RawEvent × List RawEvent) :=
  if batch_size ≤ events.length then .ok (events.take batch_size, events.drop batch_size)
  else if streamError then .error ()
  else .ok (events, [])

/-- The `while len(event_batch) > 0` loop of source lines 251-334, with the
final `commit()` of line 334.  `c` is the committed database; the `commit()`
of line 333 runs only after the next `islice` pull of line 332 succeeded, so
a pagination failure rolls the pending store back to `c`. -/
def archive_events_loop (cfg : Config) (r : RoomRow) (last_event_ids : List String)
    (c : Store) (st : BatchState) (event_batch rest : List RawEvent)
    (streamError : Bool) : Store × Except Unit (Store × Nat) :=
  if hempty : event_batch.isEmpty then
    (st.p, .ok (st.p, st.new_events_saved))
  else
    match archive_event_batch cfg r last_event_ids st event_batch with
    | .error _ => (c, .error ())
    | .ok st' =>
      if st'.stop_on_this_batch then
        (st'.p, .ok (st'.p, st'.new_events_saved))
      else
        match h : next_event_batch rest streamError with
        | .error _ => (c, .error ())
        | .ok (batch', rest') =>
          archive_events_loop cfg r last_event_ids st'.p st' batch' rest' streamError
termination_by rest.length + event_batch.length
decreasing_by
  have hne : event_batch ≠ [] := by
    intro hn
    exact hempty (by simp [hn])
  have hpos : 0 < event_batch.length := List.length_pos.mpr hne
  simp only [next_event_batch] at h
  split at h
  · simp only [Except.ok.injEq, Prod.mk.injEq] at h
    obtain ⟨h1, h2⟩ := h
    subst h1
    subst h2
    simp only [List.length_drop, List.length_take]
    omega
  · split at h
    · exact absurd h (by simp)
    · simp only [Except.ok.injEq, Prod.mk.injEq] at h
      obtain ⟨h1, h2⟩ := h
      subst h1
      subst h2
      simp only [List.length_nil]
      omega

/-- `add_members`: the member backup loop of source lines 212-228. -/
def add_members (cfg : Config) (r : RoomRow) (p : Store) :
    List MemberInput → Store
  | [] => p
  | m :: rest =>
    match Member.get p r m.user_id with
    | some _ => add_members cfg r p rest
    | none =>
      add_members cfg r
        { p with members := p.members ++
            [{ room_id := r.room_id
               display_name := m.displayname
               user_id := m.user_id
               avatar_url := m.avatar_url
               retrieval_ts := cfg.now }] } rest

/-- Stored events of one room, in insertion order. -/
def roomEventsOf (p : Store) (rid : String) : List EventRow :=
  p.events.filter (fun e => e.room_id == rid)

/-- Insertion step of the descending sort modelling
`order_by(desc(Event.origin_server_ts))` (source lines 234-235). -/
def insertByTsDesc (e : EventRow) : List EventRow → List EventRow
  | [] => [e]
  | x :: xs =>
    if x.origin_server_ts < e.origin_server_ts then e :: x :: xs
    else x :: insertByTsDesc e xs

/-- Descending-by-timestamp sort of a row list (stable on ties). -/
def order_by_ts_desc : List EventRow → List EventRow
  | [] => []
  | x :: xs => insertByTsDesc x (order_by_ts_desc xs)

/-- Source lines 234-243: the known-recent comparison set — IDs of the most
recent `known_recent_window` stored events of the room, by descending
`origin_server_ts`. -/
def last_event_ids_of (p : Store) (r : RoomRow) : List String :=
  ((order_by_ts_desc (roomEventsOf p r.room_id)).take known_recent_window).map
    (·.event_id)

/-- Room metadata backup of source lines 195-207: return the already
archived `Room` row, or create, flush and return a fresh one. -/
def room_get_or_add (cfg : Config) (p : Store) (room : RoomInput) : RoomRow × Store :=
  match Room.get p room.room_id with
  | some r => (r, p)
  | none =>
    let item : RoomRow :=
      { room_id := room.room_id
        display_name := room.display_name
        topic := room.topic
        retrieval_ts := cfg.now }
    (item, { p with rooms := p.rooms ++ [item] })

/-- Per-room body of `add_rooms` (source lines 181-335): exclusion check,
room metadata, members, then the paginated event pipeline.  Returns the
committed store and, on success, the pending store. -/
def archive_room (cfg : Config) (c p : Store) (room : RoomInput) :
    Store × Except Unit Store :=
  if room.room_id ∈ cfg.excluded_room_ids then (c, .ok p)
  else
    let pr := room_get_or_add cfg p room
    let r := pr.1
    let p2 := add_members cfg r pr.2 room.joined_members
    let last_event_ids := last_event_ids_of p2 r
    match next_event_batch room.events room.streamError with
    | .error _ => (c, .error ())
    | .ok (event_batch, rest) =>
      match archive_events_loop cfg r last_event_ids c
          { p := p2, stop_on_this_batch := false, new_events_saved := 0 }
          event_batch rest room.streamError with
      | (c', .error _) => (c', .error ())
      | (c', .ok pn) => (c', .ok pn.1)

/-- Loop of `add_rooms` over the configured rooms (source lines 181-335);
the single surrounding `@db_session` threads one pending store through all
rooms, and an uncaught exception aborts every remaining room. -/
def add_roomsAux (cfg : Config) (c p : Store) :
    List RoomInput → Store × Except Unit Store
  | [] => (c, .ok p)
  | room :: rest =>
    match archive_room cfg c p room with
    | (c', .error _) => (c', .error ())
    | (c', .ok p') => add_roomsAux cfg c' p' rest

/-- `add_rooms` (source lines 177-335) under its `@db_session`: commit on
clean exit, roll back the pending store on an exception. -/
def add_rooms (cfg : Config) (c : Store) (rooms : List RoomInput) :
    Store × Except Unit Unit :=
  match add_roomsAux cfg c c rooms with
  | (c', .error _) => (c', .error ())
  | (_, .ok p) => (p, .ok ())

/-- The `Device` row built at source lines 162-169, with the timestamp
fix-up of line 164. -/
def deviceToRow (cfg : Config) (d : DeviceInput) : DeviceRow :=
  { user_id := d.user_id
    device_id := d.device_id
    display_name := d.display_name
    last_seen_ts := d.last_seen_ts.map convert_to_iso8601
    last_seen_ip := d.last_seen_ip
    retrieval_ts := cfg.now }

/-- Loop of `add_devices` (source lines 152-173). -/
def add_devicesAux (cfg : Config) (p : Store) :
    List DeviceInput → Except Unit Store
  | [] => .ok p
  | d :: rest =>
    match Device.get p d.user_id d.device_id with
    | some _ => add_devicesAux cfg p rest
    | none =>
      match deviceFlush p (deviceToRow cfg d) with
      | .error _ => .error ()
      | .ok p' => add_devicesAux cfg p' rest

/-- `add_devices` (source lines 151-174) under its `@db_session` with the
final `commit()`. -/
def add_devices (cfg : Config) (c : Store) (devices : List DeviceInput) :
    Store × Except Unit Unit :=
  match add_devicesAux cfg c devices with
  | .ok p => (p, .ok ())
  | .error _ => (c, .error ())

/-- The archiving run of the main block (source lines 369-373):
`add_devices` then `add_rooms`, each in its own session; an exception from
either aborts the program. -/
def run_archiver (cfg : Config) (c : Store) (devices : List DeviceInput)
    (rooms : List RoomInput) : Store × Except Unit Unit :=
  match add_devices cfg c devices with
  | (c1, .error _) => (c1, .error ())
  | (c1, .ok _) =>
    match add_rooms cfg c1 rooms with
    | (c2, .error _) => (c2, .error ())
    | (c2, .ok _) => (c2, .ok ())

/-- Cache-coherence predicate of the spec's §3 invariant, restricted to the
direction the code maintains: a cached row has non-null `data`. -/
def FilesInv (s : Store) : Prop :=
  ∀ f ∈ s.files, f.is_cached = true → f.data.isSome

/-! ### Concrete inputs used in the claim analyses -/

/-- Content-reference resolver used in concrete runs. -/
def resolve0 : String → String := fun m => "http:" ++ m

/-- Network oracle that always answers 200 OK with a 3-byte body. -/
def fetch200 : String → FetchResult := fun _ => .response 200 "OK" 3 [1, 2, 3]

/-- Environment with no exclusions, `resolve0`, `fetch200` and clock 42. -/
def cfg200 : Config := ⟨[], resolve0, fetch200, 42⟩

/-- A 3-byte file attachment with content reference `mxc1`. -/
def att0 : AttachmentContent := ⟨"f.txt", 3, some "text/plain", false, "mxc1"⟩

/-- An event carrying `att0`, already archived in the concrete stores. -/
def evE1 : RawEvent := ⟨"E1", "u", "m.room.message", 10, some att0⟩

/-- A fresh event also carrying `att0`. -/
def evE2 : RawEvent := ⟨"E2", "u", "m.room.message", 11, some att0⟩

/-- The room row of the concrete stores. -/
def roomRow1 : RoomRow := ⟨"r1", "R", none, 1⟩

/-- The stored row of `evE1`. -/
def rowE1 : EventRow := ⟨"r1", some att0, "u", "m.room.message", "E1", 10, 1⟩

/-- An `att0` row whose prior fetch failed. -/
def fileUncached : FileRow :=
  ⟨"f.txt", 3, some "text/plain", false, false, none, "http:mxc1", "mxc1",
    "Fail", 1, 1⟩

/-- An `att0` row whose prior fetch succeeded. -/
def fileCached : FileRow :=
  ⟨"f.txt", 3, some "text/plain", false, true, some [9], "http:mxc1", "mxc1",
    "200 OK", 5, 1⟩

/-- Store holding room `r1`, event `E1` and the failed `att0` row. -/
def storeUncached : Store := ⟨[roomRow1], [], [], [rowE1], [fileUncached]⟩

/-- Store holding room `r1`, event `E1` and the cached `att0` row. -/
def storeCached : Store := ⟨[roomRow1], [], [], [rowE1], [fileCached]⟩

/-- Remote view of `r1` whose stream redelivers the archived event `E1`. -/
def roomStreamE1 : RoomInput := ⟨"r1", "R", none, [], [evE1], false⟩

/-- Remote view of `r1` whose stream delivers the fresh event `E2`. -/
def roomStreamE2 : RoomInput := ⟨"r1", "R", none, [], [evE2], false⟩

/-- A room whose very first pagination request fails. -/
def roomFail : RoomInput := ⟨"rf", "F", none, [], [], true⟩

/-- A healthy room listed after the failing one. -/
def roomGood : RoomInput :=
  ⟨"rg", "G", none, [], [⟨"G1", "u", "m.room.message", 5, none⟩], false⟩

/-- Pairwise-distinct opaque event identifiers. -/
def evIdOf (i : Nat) : String := ⟨List.replicate i 'a'⟩

/-- The i-th attachment-free event of the 1000-event stream. -/
def c4Event (i : Nat) : RawEvent :=
  ⟨evIdOf i, "u", "m.room.message", 5000 - i, none⟩

/-- A stream of exactly `batch_size` fresh events. -/
def c4Events : List RawEvent := (List.range batch_size).map c4Event

/-- A room delivering one full batch and then failing the next
pagination request. -/
def roomBigStream : RoomInput := ⟨"r4", "R4", none, [], c4Events, true⟩

/-- A single fresh event for small loop-level instantiations. -/
def evW : RawEvent := ⟨"W1", "u", "m.room.message", 1, none⟩

/-- Room row created for `roomBigStream` at clock 42. -/
def roomRow4 : RoomRow := ⟨"r4", "R4", none, 42⟩

/-- Pending store right before `roomBigStream`'s event loop. -/
def store4 : Store := ⟨[roomRow4], [], [], [], []⟩

/-- A room whose stream delivers the same unknown event ID twice. -/
def roomDup : RoomInput :=
  ⟨"rx", "RX", none, [],
    [⟨"X", "u", "m.room.message", 2, none⟩,
      ⟨"X", "u", "m.room.message", 1, none⟩], false⟩

/-- Events of the frontier scenario: `c3Ev i` is eᵢ of the spec's
`[e10,...,e1]` history. -/
def c3Ev (i : Nat) : RawEvent :=
  ⟨"e" ++ toString i, "u", "m.room.message", i, none⟩

/-- The stored row of `c3Ev i` in room `r3`. -/
def c3Row (i : Nat) : EventRow :=
  ⟨"r3", none, "u", "m.room.message", "e" ++ toString i, i, 1⟩

/-- Store of the frontier scenario, already holding e5..e1. -/
def storeC3 : Store :=
  ⟨[⟨"r3", "R3", none, 1⟩], [], [],
    [c3Row 5, c3Row 4, c3Row 3, c3Row 2, c3Row 1], []⟩

/-- Remote view of `r3` delivering `[e10,...,e1]` newest first. -/
def roomC3 : RoomInput :=
  ⟨"r3", "R3", none, [],
    [c3Ev 10, c3Ev 9, c3Ev 8, c3Ev 7, c3Ev 6, c3Ev 5, c3Ev 4, c3Ev 3,
      c3Ev 2, c3Ev 1], false⟩

/-- A device-list entry for the idempotence witness. -/
def devW : DeviceInput :=
  ⟨"u1", "d1", some "phone", some 1577836800000, some "1.2.3.4"⟩

/-- A room for the idempotence witness: one member, two events with
strictly descending timestamps. -/
def roomW9 : RoomInput :=
  ⟨"r9", "R9", some "t", [⟨"alice", "u1", none⟩],
    [⟨"A2", "u1", "m.room.message", 20, none⟩,
      ⟨"A1", "u1", "m.room.message", 10, none⟩], false⟩

/-- Stored row of `devW` at clock 42. -/
def devRowW : DeviceRow :=
  ⟨"u1", "d1", some "phone", some 1577836800000, some "1.2.3.4", 42⟩

/-- Committed store after the first archiving run of the idempotence
witness input. -/
def S1W : Store :=
  ⟨[⟨"r9", "R9", some "t", 42⟩], [⟨"r9", "alice", "u1", none, 42⟩], [devRowW],
    [⟨"r9", none, "u1", "m.room.message", "A2", 20, 42⟩,
      ⟨"r9", none, "u1", "m.room.message", "A1", 10, 42⟩], []⟩

/-! ### Inversion and frame lemmas -/

theorem except_bind_ok {ε α β : Type} {x : Except ε α} {f : α → Except ε β} {b : β}
    (h : (x >>= f) = .ok b) : ∃ a, x = .ok a ∧ f a = .ok b := by
  cases x with
  | error e => exact absurd h (by simp [Bind.bind, Except.bind])
  | ok a => exact ⟨a, rfl, by simpa [Bind.bind, Except.bind] using h⟩

theorem updateFile_frame (s : Store) (m : String) (g : FileRow → FileRow) :
    (updateFile s m g).events = s.events ∧ (updateFile s m g).rooms = s.rooms ∧
      (updateFile s m g).members = s.members ∧ (updateFile s m g).devices = s.devices := by
  simp [updateFile]

theorem archive_file_ok_frame {cfg : Config} {p : Store} {att : AttachmentContent}
    {p' : Store} (h : archive_file cfg p att = .ok p') :
    p'.events = p.events ∧ p'.rooms = p.rooms ∧ p'.members = p.members ∧
      p'.devices = p.devices := by
  simp only [archive_file] at h
  split at h
  · simp only [fileFlushInsert] at h
    split at h
    · exact absurd h (by simp)
    · simp only [Except.ok.injEq] at h
      subst h
      simp
  · simp only [Except.ok.injEq] at h
    subst h
    simp [updateFile]

theorem add_members_frame (cfg : Config) (r : RoomRow) (p : Store)
    (ms : List MemberInput) :
    (add_members cfg r p ms).events = p.events ∧
      (add_members cfg r p ms).rooms = p.rooms ∧
      (add_members cfg r p ms).devices = p.devices ∧
      (add_members cfg r p ms).files = p.files := by
  induction ms generalizing p with
  | nil => simp [add_members]
  | cons m rest ih =>
    simp only [add_members]
    split
    · exact ih p
    · simpa using ih _

theorem add_members_mem (cfg : Config) (r : RoomRow) (p : Store)
    (ms : List MemberInput) (x : MemberRow) (hx : x ∈ p.members) :
    x ∈ (add_members cfg r p ms).members := by
  induction ms generalizing p with
  | nil => simpa [add_members] using hx
  | cons m rest ih =>
    simp only [add_members]
    split
    · exact ih p hx
    · exact ih _ (by simp [hx])

theorem add_members_present (cfg : Config) (r : RoomRow) :
    ∀ (ms : List MemberInput) (p : Store), ∀ m ∈ ms,
      ∃ row ∈ (add_members cfg r p ms).members,
        row.room_id = r.room_id ∧ row.user_id = m.user_id := by
  intro ms
  induction ms with
  | nil =>
    intro p m hm
    simp at hm
  | cons mhd rest ih =>
    intro p m hm
    rw [List.mem_cons] at hm
    cases hg : Member.get p r mhd.user_id with
    | some row =>
      have hrow := List.mem_of_find?_eq_some hg
      have hpr := List.find?_some hg
      simp only [Bool.and_eq_true, beq_iff_eq] at hpr
      rcases hm with rfl | hm
      · refine ⟨row, ?_, hpr.1, hpr.2⟩
        simp only [add_members, hg]
        exact add_members_mem cfg r p rest row hrow
      · simp only [add_members, hg]
        exact ih p m hm
    | none =>
      rcases hm with rfl | hm
      · refine ⟨{ room_id := r.room_id, display_name := m.displayname,
                  user_id := m.user_id, avatar_url := m.avatar_url,
                  retrieval_ts := cfg.now }, ?_, rfl, rfl⟩
        simp only [add_members, hg]
        exact add_members_mem cfg r _ rest _ (by simp)
      · simp only [add_members, hg]
        exact ih _ m hm

theorem add_members_skip (cfg : Config) (r : RoomRow) (p : Store)
    (ms : List MemberInput)
    (h : ∀ m ∈ ms, (Member.get p r m.user_id).isSome) :
    add_members cfg r p ms = p := by
  induction ms with
  | nil => rfl
  | cons m rest ih =>
    cases hg : Member.get p r m.user_id with
    | none => exact absurd (h m (by simp)) (by simp [hg])
    | some row =>
      simp only [add_members, hg]
      exact ih (fun m' hm' => h m' (by simp [hm']))

theorem room_get_or_add_room_id (cfg : Config) (p : Store) (room : RoomInput) :
    (room_get_or_add cfg p room).1.room_id = room.room_id := by
  simp only [room_get_or_add, Room.get]
  split
  · rename_i r hr
    have := List.find?_some hr
    simpa [beq_iff_eq] using this
  · rfl

theorem room_get_or_add_frame (cfg : Config) (p : Store) (room : RoomInput) :
    (room_get_or_add cfg p room).2.events = p.events ∧
      (room_get_or_add cfg p room).2.members = p.members ∧
      (room_get_or_add cfg p room).2.devices = p.devices ∧
      (room_get_or_add cfg p room).2.files = p.files := by
  simp only [room_get_or_add, Room.get]
  split <;> simp

theorem room_get_or_add_present (cfg : Config) (p : Store) (room : RoomInput) :
    ∃ row ∈ (room_get_or_add cfg p room).2.rooms, row.room_id = room.room_id := by
  simp only [room_get_or_add, Room.get]
  split
  · rename_i r hr
    have hm := List.mem_of_find?_eq_some hr
    have hp := List.find?_some hr
    exact ⟨r, hm, by simpa [beq_iff_eq] using hp⟩
  · refine ⟨{ room_id := room.room_id, display_name := room.display_name,
              topic := room.topic, retrieval_ts := cfg.now }, ?_, rfl⟩
    simp

theorem room_get_or_add_rooms_mem (cfg : Config) (p : Store) (room : RoomInput)
    (x : RoomRow) (hx : x ∈ p.rooms) : x ∈ (room_get_or_add cfg p room).2.rooms := by
  simp only [room_get_or_add, Room.get]
  split
  · exact hx
  · simp [hx]

/-! ### Batch-pull lemmas -/

theorem next_event_batch_small {evs : List RawEvent} (h : evs.length ≤ batch_size) :
    next_event_batch evs false = .ok (evs, []) := by
  simp only [next_event_batch]
  rcases Nat.lt_or_ge evs.length batch_size with hlt | hge
  · rw [if_neg (by omega)]
    simp
  · have hq : evs.length = batch_size := le_antisymm h hge
    rw [if_pos hge, List.take_of_length_le h, List.drop_eq_nil_of_le h]

theorem next_event_batch_err {evs : List RawEvent} (h : evs.length < batch_size) :
    next_event_batch evs true = .error () := by
  simp [next_event_batch, Nat.not_le.mpr h]

theorem next_event_batch_full {evs : List RawEvent} (h : batch_size ≤ evs.length)
    (sErr : Bool) :
    next_event_batch evs sErr = .ok (evs.take batch_size, evs.drop batch_size) := by
  simp [next_event_batch, h]

/-! ### Sorting lemmas for the known-recent window -/

theorem mem_insertByTsDesc (e x : EventRow) (l : List EventRow) :
    x ∈ insertByTsDesc e l ↔ x = e ∨ x ∈ l := by
  induction l with
  | nil => simp [insertByTsDesc]
  | cons y ys ih =>
    simp only [insertByTsDesc]
    split
    · simp
    · simp [ih]
      tauto

theorem mem_order_by_ts_desc (x : EventRow) (l : List EventRow) :
    x ∈ order_by_ts_desc l ↔ x ∈ l := by
  induction l with
  | nil => simp [order_by_ts_desc]
  | cons y ys ih => simp [order_by_ts_desc, mem_insertByTsDesc, ih]

theorem length_insertByTsDesc (e : EventRow) (l : List EventRow) :
    (insertByTsDesc e l).length = l.length + 1 := by
  induction l with
  | nil => rfl
  | cons y ys ih =>
    simp only [insertByTsDesc]
    split
    · rfl
    · simp [ih]

theorem length_order_by_ts_desc (l : List EventRow) :
    (order_by_ts_desc l).length = l.length := by
  induction l with
  | nil => rfl
  | cons y ys ih => simp [order_by_ts_desc, length_insertByTsDesc, ih]

theorem insertByTsDesc_cons_of_lt (e x : EventRow) (xs : List EventRow)
    (h : x.origin_server_ts < e.origin_server_ts) :
    insertByTsDesc e (x :: xs) = e :: x :: xs := by
  simp [insertByTsDesc, h]

theorem order_by_ts_desc_sorted_fix (l : List EventRow)
    (h : List.Chain' (fun a b => b.origin_server_ts < a.origin_server_ts) l) :
    order_by_ts_desc l = l := by
  induction l with
  | nil => rfl
  | cons x xs ih =>
    have h2 := (List.chain'_cons'.mp h).2
    simp only [order_by_ts_desc, ih h2]
    cases xs with
    | nil => rfl
    | cons y ys =>
      exact insertByTsDesc_cons_of_lt x y ys ((List.chain'_cons'.mp h).1 y rfl)

/-! ### Set-difference lemmas -/

theorem mem_batchDiff_iff {batch : List RawEvent} {lastIds : List String}
    {e : RawEvent} (he : e ∈ batch) :
    e.event_id ∈ batchDiff batch lastIds ↔ e.event_id ∉ lastIds := by
  constructor
  · intro h
    have := (List.mem_filter.mp h).2
    simpa using this
  · intro h
    exact List.mem_filter.mpr ⟨List.mem_map_of_mem _ he, by simpa using h⟩

theorem except_ok_bind {ε α β : Type} (a : α) (f : α → Except ε β) :
    (Except.ok a >>= f) = f a := rfl

/-! ### Batch-fold characterizations -/

@[simp] theorem eventToRow_event_id (cfg : Config) (rid : String) (e : RawEvent) :
    (eventToRow cfg rid e).event_id = e.event_id := rfl

@[simp] theorem eventToRow_room_id (cfg : Config) (rid : String) (e : RawEvent) :
    (eventToRow cfg rid e).room_id = rid := rfl

@[simp] theorem eventToRow_origin_server_ts (cfg : Config) (rid : String) (e : RawEvent) :
    (eventToRow cfg rid e).origin_server_ts = e.origin_server_ts := rfl

theorem eventFlush_ok_inv {s : Store} {e : EventRow} {p1 : Store}
    (h : eventFlush s e = .ok p1) :
    p1 = { s with events := s.events ++ [e] } ∧
      e.event_id ∉ s.events.map (·.event_id) := by
  simp only [eventFlush] at h
  split at h
  · exact absurd h (by simp)
  · rename_i hne
    simp only [Except.ok.injEq] at h
    exact ⟨h.symm, hne⟩

theorem archive_event_skip {cfg : Config} {r : RoomRow} {diff : List String}
    {st : BatchState} {e : RawEvent} (he : e.event_id ∉ diff) :
    archive_event cfg r diff st e = .ok { st with stop_on_this_batch := true } := by
  simp only [archive_event]
  rw [if_pos he]

theorem archive_event_insert {cfg : Config} {r : RoomRow} {diff : List String}
    {st : BatchState} {e : RawEvent} (he : e.event_id ∈ diff)
    (hfr : e.event_id ∉ st.p.events.map (·.event_id))
    (hna : e.content_attachment = none) :
    archive_event cfg r diff st e = .ok
      ⟨{ st.p with events := st.p.events ++ [eventToRow cfg r.room_id e] },
        st.stop_on_this_batch, st.new_events_saved + 1⟩ := by
  simp only [archive_event]
  rw [if_neg (not_not_intro he)]
  have hef : eventFlush st.p (eventToRow cfg r.room_id e) =
      .ok { st.p with events := st.p.events ++ [eventToRow cfg r.room_id e] } := by
    simp [eventFlush, hfr]
  simp [hef, hna]

theorem archive_event_ok_inv {cfg : Config} {r : RoomRow} {diff : List String}
    {st : BatchState} {e : RawEvent} {st1 : BatchState}
    (h : archive_event cfg r diff st e = .ok st1) :
    (e.event_id ∉ diff ∧ st1 = { st with stop_on_this_batch := true }) ∨
      (e.event_id ∈ diff ∧ st1.stop_on_this_batch = st.stop_on_this_batch ∧
        st1.new_events_saved = st.new_events_saved + 1 ∧
        st1.p.events = st.p.events ++ [eventToRow cfg r.room_id e] ∧
        st1.p.rooms = st.p.rooms ∧ st1.p.members = st.p.members ∧
        st1.p.devices = st.p.devices) := by
  by_cases hd : e.event_id ∈ diff
  · right
    refine ⟨hd, ?_⟩
    simp only [archive_event] at h
    rw [if_neg (not_not_intro hd)] at h
    cases hef : eventFlush st.p (eventToRow cfg r.room_id e) with
    | error u =>
      simp only [hef] at h
      exact absurd h (by simp)
    | ok p1 =>
      simp only [hef] at h
      obtain ⟨hp1, -⟩ := eventFlush_ok_inv hef
      subst hp1
      cases hca : e.content_attachment with
      | none =>
        simp only [hca, Except.ok.injEq] at h
        subst h
        simp
      | some att =>
        simp only [hca] at h
        cases haf : archive_file cfg { st.p with
            events := st.p.events ++ [eventToRow cfg r.room_id e] } att with
        | error u =>
          simp only [haf] at h
          exact absurd h (by simp)
        | ok p2 =>
          simp only [haf, Except.ok.injEq] at h
          subst h
          obtain ⟨fa, fb, fc, fd⟩ := archive_file_ok_frame haf
          simp [fa, fb, fc, fd]
  · left
    refine ⟨hd, ?_⟩
    simp only [archive_event] at h
    rw [if_pos hd] at h
    simp only [Except.ok.injEq] at h
    exact h.symm

theorem foldl_archive_event_skip (cfg : Config) (r : RoomRow) (diff : List String) :
    ∀ (batch : List RawEvent) (st : BatchState),
      (∀ e ∈ batch, e.event_id ∉ diff) →
      batch.foldlM (archive_event cfg r diff) st =
        .ok { st with stop_on_this_batch := st.stop_on_this_batch || !batch.isEmpty } := by
  intro batch
  induction batch with
  | nil =>
    intro st _
    simp only [List.foldlM_nil, List.isEmpty_nil, Bool.not_true, Bool.or_false]
    rfl
  | cons e rest ih =>
    intro st h
    rw [List.foldlM_cons, archive_event_skip (h e (by simp)), except_ok_bind,
      ih { st with stop_on_this_batch := true } (fun e' he' => h e' (by simp [he']))]
    simp

theorem foldl_archive_event_new (cfg : Config) (r : RoomRow)
    (lastIds diff : List String) :
    ∀ (batch : List RawEvent) (st : BatchState),
      (∀ e ∈ batch, e.event_id ∉ lastIds → e.content_attachment = none) →
      (∀ e ∈ batch, (e.event_id ∈ diff ↔ e.event_id ∉ lastIds)) →
      (batch.map (·.event_id)).Nodup →
      (∀ e ∈ batch, e.event_id ∉ lastIds → e.event_id ∉ st.p.events.map (·.event_id)) →
      batch.foldlM (archive_event cfg r diff) st = .ok
        ⟨{ st.p with events := st.p.events ++ newRowsOf cfg r.room_id lastIds batch },
          st.stop_on_this_batch || batch.any (fun e => decide (e.event_id ∈ lastIds)),
          st.new_events_saved + (newRowsOf cfg r.room_id lastIds batch).length⟩ := by
  intro batch
  induction batch with
  | nil =>
    intro st _ _ _ _
    simp only [List.foldlM_nil, newRowsOf, List.filter_nil, List.map_nil,
      List.append_nil, List.any_nil, Bool.or_false, List.length_nil, Nat.add_zero]
    rfl
  | cons e rest ih =>
    intro st hatt hdiff hnodup hfresh
    rw [List.foldlM_cons]
    by_cases hknown : e.event_id ∈ lastIds
    · have he : e.event_id ∉ diff := fun hc => ((hdiff e (by simp)).mp hc) hknown
      rw [archive_event_skip he, except_ok_bind,
        ih { st with stop_on_this_batch := true }
          (fun e' he' => hatt e' (by simp [he']))
          (fun e' he' => hdiff e' (by simp [he']))
          (by simpa using hnodup.of_cons)
          (fun e' he' => hfresh e' (by simp [he']))]
      simp [newRowsOf, hknown]
    · have he : e.event_id ∈ diff := (hdiff e (by simp)).mpr hknown
      have hfr : e.event_id ∉ st.p.events.map (·.event_id) :=
        hfresh e (by simp) hknown
      rw [archive_event_insert he hfr (hatt e (by simp) hknown), except_ok_bind]
      have hid : e.event_id ∉ rest.map (·.event_id) := by
        have := hnodup
        simp only [List.map_cons, List.nodup_cons] at this
        exact this.1
      rw [ih ⟨{ st.p with events := st.p.events ++ [eventToRow cfg r.room_id e] },
          st.stop_on_this_batch, st.new_events_saved + 1⟩
        (fun e' he' => hatt e' (by simp [he']))
        (fun e' he' => hdiff e' (by simp [he']))
        (by simpa using hnodup.of_cons)
        (fun e' he' hl => by
          simp only [List.map_append, List.mem_append]
          rintro (hc | hc)
          · exact hfresh e' (by simp [he']) hl hc
          · simp only [List.map_cons, List.map_nil, List.mem_singleton,
              eventToRow_event_id] at hc
            exact hid (hc ▸ List.mem_map_of_mem (·.event_id) he'))]
      simp [newRowsOf, hknown, List.filter_cons, List.append_assoc, Nat.add_comm 1,
        Nat.add_assoc]

theorem foldl_archive_event_ok (cfg : Config) (r : RoomRow) (diff : List String) :
    ∀ (batch : List RawEvent) (st st' : BatchState),
      batch.foldlM (archive_event cfg r diff) st = .ok st' →
      (∀ e ∈ batch, e.event_id ∈ diff) →
      st'.p.events = st.p.events ++ batch.map (eventToRow cfg r.room_id) ∧
        st'.p.rooms = st.p.rooms ∧ st'.p.members = st.p.members ∧
        st'.p.devices = st.p.devices ∧
        st'.stop_on_this_batch = st.stop_on_this_batch := by
  intro batch
  induction batch with
  | nil =>
    intro st st' h _
    simp only [List.foldlM_nil] at h
    cases h
    simp
  | cons e rest ih =>
    intro st st' h hdiff
    rw [List.foldlM_cons] at h
    obtain ⟨st1, h1, h2⟩ := except_bind_ok h
    rcases archive_event_ok_inv h1 with ⟨hno, -⟩ | ⟨-, hstop, -, hev, hr, hm, hd⟩
    · exact absurd (hdiff e (by simp)) hno
    · obtain ⟨ha, hb, hc, hd', hstop'⟩ := ih _ _ h2 (fun e' he' => hdiff e' (by simp [he']))
      refine ⟨?_, ?_, ?_, ?_, ?_⟩ <;> simp_all [List.append_assoc]

theorem foldl_archive_event_shape (cfg : Config) (r : RoomRow) (diff : List String) :
    ∀ (batch : List RawEvent) (st st' : BatchState),
      batch.foldlM (archive_event cfg r diff) st = .ok st' →
      (∃ tail, st'.p.events = st.p.events ++ tail ∧
          ∀ row ∈ tail, row.room_id = r.room_id) ∧
        st'.p.rooms = st.p.rooms ∧ st'.p.members = st.p.members ∧
        st'.p.devices = st.p.devices := by
  intro batch
  induction batch with
  | nil =>
    intro st st' h
    simp only [List.foldlM_nil] at h
    cases h
    exact ⟨⟨[], by simp, by simp⟩, rfl, rfl, rfl⟩
  | cons e rest ih =>
    intro st st' h
    rw [List.foldlM_cons] at h
    obtain ⟨st1, h1, h2⟩ := except_bind_ok h
    obtain ⟨⟨tail, htail, hrid⟩, hb, hc, hd⟩ := ih _ _ h2
    rcases archive_event_ok_inv h1 with ⟨-, rfl⟩ | ⟨-, hstop, -, hev, hr, hm, hdv⟩
    · exact ⟨⟨tail, by simpa using htail, hrid⟩, by simpa using hb,
        by simpa using hc, by simpa using hd⟩
    · refine ⟨⟨eventToRow cfg r.room_id e :: tail, ?_, ?_⟩, ?_, ?_, ?_⟩
      · rw [htail, hev, List.append_assoc]
        simp
      · intro row hrow
        rcases List.mem_cons.mp hrow with rfl | hrow
        · simp
        · exact hrid row hrow
      · rw [hb, hr]
      · rw [hc, hm]
      · rw [hd, hdv]

/-! ### Batch-level wrappers -/

theorem archive_event_batch_skip {cfg : Config} {r : RoomRow} {lastIds : List String}
    {st : BatchState} {batch : List RawEvent}
    (h : ∀ e ∈ batch, e.event_id ∈ lastIds) :
    archive_event_batch cfg r lastIds st batch =
      .ok { st with stop_on_this_batch := st.stop_on_this_batch || !batch.isEmpty } := by
  refine foldl_archive_event_skip cfg r _ batch st ?_
  intro e he hc
  exact ((mem_batchDiff_iff he).mp hc) (h e he)

theorem archive_event_batch_new {cfg : Config} {r : RoomRow} {lastIds : List String}
    {st : BatchState} {batch : List RawEvent}
    (hatt : ∀ e ∈ batch, e.event_id ∉ lastIds → e.content_attachment = none)
    (hnodup : (batch.map (·.event_id)).Nodup)
    (hfresh : ∀ e ∈ batch, e.event_id ∉ lastIds →
      e.event_id ∉ st.p.events.map (·.event_id)) :
    archive_event_batch cfg r lastIds st batch = .ok
      ⟨{ st.p with events := st.p.events ++ newRowsOf cfg r.room_id lastIds batch },
        st.stop_on_this_batch || batch.any (fun e => decide (e.event_id ∈ lastIds)),
        st.new_events_saved + (newRowsOf cfg r.room_id lastIds batch).length⟩ :=
  foldl_archive_event_new cfg r lastIds _ batch st hatt
    (fun e he => mem_batchDiff_iff he) hnodup hfresh

theorem archive_event_batch_new_nostop {cfg : Config} {r : RoomRow}
    {lastIds : List String} {st : BatchState} {batch : List RawEvent}
    (hatt : ∀ e ∈ batch, e.event_id ∉ lastIds → e.content_attachment = none)
    (hnodup : (batch.map (·.event_id)).Nodup)
    (hfresh : ∀ e ∈ batch, e.event_id ∉ lastIds →
      e.event_id ∉ st.p.events.map (·.event_id))
    (hstop0 : st.stop_on_this_batch = false)
    (hnoknown : ∀ e ∈ batch, e.event_id ∉ lastIds) :
    archive_event_batch cfg r lastIds st batch = .ok
      ⟨{ st.p with events := st.p.events ++ newRowsOf cfg r.room_id lastIds batch },
        false,
        st.new_events_saved + (newRowsOf cfg r.room_id lastIds batch).length⟩ := by
  rw [@archive_event_batch_new cfg r lastIds st batch hatt hnodup hfresh]
  have hB : (st.stop_on_this_batch ||
      batch.any (fun e => decide (e.event_id ∈ lastIds))) = false := by
    rw [hstop0, Bool.false_or, Bool.eq_false_iff]
    intro hany
    rw [List.any_eq_true] at hany
    obtain ⟨e, he, hdec⟩ := hany
    rw [decide_eq_true_eq] at hdec
    exact hnoknown e he hdec
  rw [hB]

theorem archive_event_batch_ok {cfg : Config} {r : RoomRow} {lastIds : List String}
    {st st' : BatchState} {batch : List RawEvent}
    (h : archive_event_batch cfg r lastIds st batch = .ok st')
    (hnew : ∀ e ∈ batch, e.event_id ∉ lastIds) :
    st'.p.events = st.p.events ++ batch.map (eventToRow cfg r.room_id) ∧
      st'.p.rooms = st.p.rooms ∧ st'.p.members = st.p.members ∧
      st'.p.devices = st.p.devices ∧
      st'.stop_on_this_batch = st.stop_on_this_batch :=
  foldl_archive_event_ok cfg r _ batch st st' h
    (fun e he => (mem_batchDiff_iff he).mpr (hnew e he))

theorem archive_event_batch_shape {cfg : Config} {r : RoomRow} {lastIds : List String}
    {st st' : BatchState} {batch : List RawEvent}
    (h : archive_event_batch cfg r lastIds st batch = .ok st') :
    (∃ tail, st'.p.events = st.p.events ++ tail ∧
        ∀ row ∈ tail, row.room_id = r.room_id) ∧
      st'.p.rooms = st.p.rooms ∧ st'.p.members = st.p.members ∧
      st'.p.devices = st.p.devices :=
  foldl_archive_event_shape cfg r _ batch st st' h

/-! ### One-step laws of the event loop -/

theorem archive_events_loop_nil (cfg : Config) (r : RoomRow) (lastIds : List String)
    (c : Store) (st : BatchState) (rest : List RawEvent) (sErr : Bool) :
    archive_events_loop cfg r lastIds c st [] rest sErr =
      (st.p, .ok (st.p, st.new_events_saved)) := by
  rw [archive_events_loop]
  simp

theorem archive_events_loop_batch_err {cfg : Config} {r : RoomRow}
    {lastIds : List String} {c : Store} {st : BatchState}
    {batch rest : List RawEvent} {sErr : Bool}
    (hne : batch ≠ [])
    (h : archive_event_batch cfg r lastIds st batch = .error ()) :
    archive_events_loop cfg r lastIds c st batch rest sErr = (c, .error ()) := by
  rw [archive_events_loop]
  rw [dif_neg (by simpa using hne)]
  rw [h]

theorem archive_events_loop_stop {cfg : Config} {r : RoomRow}
    {lastIds : List String} {c : Store} {st st' : BatchState}
    {batch rest : List RawEvent} {sErr : Bool}
    (hne : batch ≠ [])
    (h : archive_event_batch cfg r lastIds st batch = .ok st')
    (hstop : st'.stop_on_this_batch = true) :
    archive_events_loop cfg r lastIds c st batch rest sErr =
      (st'.p, .ok (st'.p, st'.new_events_saved)) := by
  rw [archive_events_loop]
  rw [dif_neg (by simpa using hne)]
  rw [h]
  simp [hstop]

theorem archive_events_loop_pull_ok {cfg : Config} {r : RoomRow}
    {lastIds : List String} {c : Store} {st st' : BatchState}
    {batch rest b2 r2 : List RawEvent} {sErr : Bool}
    (hne : batch ≠ [])
    (h : archive_event_batch cfg r lastIds st batch = .ok st')
    (hstop : st'.stop_on_this_batch = false)
    (hp : next_event_batch rest sErr = .ok (b2, r2)) :
    archive_events_loop cfg r lastIds c st batch rest sErr =
      archive_events_loop cfg r lastIds st'.p st' b2 r2 sErr := by
  rw [archive_events_loop]
  rw [dif_neg (by simpa using hne)]
  rw [h]
  simp only [hstop, if_false, Bool.false_eq_true]
  split
  · rename_i heq
    rw [hp] at heq
    exact absurd heq (by simp)
  · rename_i b2' r2' heq
    rw [hp] at heq
    simp only [Except.ok.injEq, Prod.mk.injEq] at heq
    rw [heq.1, heq.2]

theorem archive_events_loop_pull_err {cfg : Config} {r : RoomRow}
    {lastIds : List String} {c : Store} {st st' : BatchState}
    {batch rest : List RawEvent} {sErr : Bool}
    (hne : batch ≠ [])
    (h : archive_event_batch cfg r lastIds st batch = .ok st')
    (hstop : st'.stop_on_this_batch = false)
    (hp : next_event_batch rest sErr = .error ()) :
    archive_events_loop cfg r lastIds c st batch rest sErr = (c, .error ()) := by
  rw [archive_events_loop]
  rw [dif_neg (by simpa using hne)]
  rw [h]
  simp only [hstop, if_false, Bool.false_eq_true]
  split
  · rfl
  · rename_i b2' r2' heq
    rw [hp] at heq
    exact absurd heq (by simp)

theorem next_event_batch_ok_inv {rest b2 r2 : List RawEvent} {sErr : Bool}
    (h : next_event_batch rest sErr = .ok (b2, r2)) :
    b2 ++ r2 = rest ∧ (b2 = [] → r2 = []) := by
  simp only [next_event_batch] at h
  split at h
  · rename_i hlen
    simp only [Except.ok.injEq, Prod.mk.injEq] at h
    obtain ⟨h1, h2⟩ := h
    subst h1
    subst h2
    refine ⟨List.take_append_drop _ _, fun hb => ?_⟩
    have hr : rest = [] := by
      rcases List.take_eq_nil_iff.mp hb with h | h
      · exact absurd h (by simp [batch_size])
      · exact h
    simp [hr]
  · split at h
    · exact absurd h (by simp)
    · simp only [Except.ok.injEq, Prod.mk.injEq] at h
      obtain ⟨h1, h2⟩ := h
      subst h1
      subst h2
      exact ⟨by simp, fun _ => rfl⟩

theorem archive_events_loop_single {cfg : Config} {r : RoomRow}
    {lastIds : List String} {c : Store} {st st' : BatchState}
    {batch : List RawEvent}
    (h : archive_event_batch cfg r lastIds st batch = .ok st') :
    archive_events_loop cfg r lastIds c st batch [] false =
      (st'.p, .ok (st'.p, st'.new_events_saved)) := by
  by_cases hne : batch = []
  · subst hne
    simp only [archive_event_batch, List.foldlM_nil] at h
    have hok : (Except.ok st : Except Unit BatchState) = .ok st' := h
    have hst : st = st' := by simpa using hok
    subst hst
    exact archive_events_loop_nil cfg r lastIds c st [] false
  · cases hstop : st'.stop_on_this_batch with
    | true => exact archive_events_loop_stop hne h hstop
    | false =>
      rw [archive_events_loop_pull_ok hne h hstop
        (next_event_batch_small (Nat.zero_le _))]
      exact archive_events_loop_nil cfg r lastIds st'.p st' [] false

theorem archive_events_loop_all_new (cfg : Config) (r : RoomRow) :
    ∀ (N : Nat) (batch rest : List RawEvent), rest.length + batch.length ≤ N →
      ∀ (c : Store) (st : BatchState) (sErr : Bool) (c' p' : Store) (n : Nat),
      (batch = [] → rest = []) →
      st.stop_on_this_batch = false →
      archive_events_loop cfg r [] c st batch rest sErr = (c', .ok (p', n)) →
      p'.events = st.p.events ++ (batch ++ rest).map (eventToRow cfg r.room_id) ∧
        p'.rooms = st.p.rooms ∧ p'.members = st.p.members ∧
        p'.devices = st.p.devices ∧ c' = p' := by
  intro N
  induction N with
  | zero =>
    intro batch rest hlen c st sErr c' p' n hbr _ h
    have hb : batch = [] := by
      cases batch with
      | nil => rfl
      | cons a l => simp at hlen
    have hr : rest = [] := hbr hb
    subst hb
    subst hr
    rw [archive_events_loop_nil] at h
    simp only [Prod.mk.injEq, Except.ok.injEq] at h
    obtain ⟨h1, h2, -⟩ := h
    subst h1
    subst h2
    simp
  | succ N ih =>
    intro batch rest hlen c st sErr c' p' n hbr hstop h
    by_cases hb : batch = []
    · have hr : rest = [] := hbr hb
      subst hb
      subst hr
      rw [archive_events_loop_nil] at h
      simp only [Prod.mk.injEq, Except.ok.injEq] at h
      obtain ⟨h1, h2, -⟩ := h
      subst h1
      subst h2
      simp
    · cases haeb : archive_event_batch cfg r [] st batch with
      | error u =>
        cases u
        rw [archive_events_loop_batch_err hb haeb] at h
        exact absurd h (by simp)
      | ok st' =>
        obtain ⟨hev, hro, hme, hde, hst⟩ :=
          archive_event_batch_ok haeb (fun e _ hc => by simp at hc)
        have hstop' : st'.stop_on_this_batch = false := by rw [hst, hstop]
        cases hp : next_event_batch rest sErr with
        | error u =>
          cases u
          rw [archive_events_loop_pull_err hb haeb hstop' hp] at h
          exact absurd h (by simp)
        | ok b2r2 =>
          obtain ⟨b2, r2⟩ := b2r2
          obtain ⟨hsum, hbr2⟩ := next_event_batch_ok_inv hp
          rw [archive_events_loop_pull_ok hb haeb hstop' hp] at h
          have hlen2 : r2.length + b2.length ≤ N := by
            have : b2.length + r2.length = rest.length := by
              rw [← hsum]
              simp
            have hb1 : 1 ≤ batch.length := by
              cases batch with
              | nil => exact absurd rfl hb
              | cons a l => simp
            omega
          obtain ⟨ih1, ih2, ih3, ih4, ih5⟩ :=
            ih b2 r2 hlen2 st'.p st' sErr c' p' n hbr2 hstop' h
          refine ⟨?_, ?_, ?_, ?_, ih5⟩
          · rw [hsum] at ih1
            rw [ih1, hev, List.append_assoc, ← List.map_append]
          · rw [ih2, hro]
          · rw [ih3, hme]
          · rw [ih4, hde]

theorem archive_events_loop_ok_shape (cfg : Config) (r : RoomRow)
    (lastIds : List String) :
    ∀ (N : Nat) (batch rest : List RawEvent), rest.length + batch.length ≤ N →
      ∀ (c : Store) (st : BatchState) (sErr : Bool) (c' p' : Store) (n : Nat),
      archive_events_loop cfg r lastIds c st batch rest sErr = (c', .ok (p', n)) →
      (∃ tail, p'.events = st.p.events ++ tail ∧
          ∀ row ∈ tail, row.room_id = r.room_id) ∧
        p'.rooms = st.p.rooms ∧ p'.members = st.p.members ∧
        p'.devices = st.p.devices ∧ c' = p' := by
  intro N
  induction N with
  | zero =>
    intro batch rest hlen c st sErr c' p' n h
    have hb : batch = [] := by
      cases batch with
      | nil => rfl
      | cons a l => simp at hlen
    subst hb
    rw [archive_events_loop_nil] at h
    simp only [Prod.mk.injEq, Except.ok.injEq] at h
    obtain ⟨h1, h2, -⟩ := h
    subst h1
    subst h2
    exact ⟨⟨[], by simp, by simp⟩, rfl, rfl, rfl, rfl⟩
  | succ N ih =>
    intro batch rest hlen c st sErr c' p' n h
    by_cases hb : batch = []
    · subst hb
      rw [archive_events_loop_nil] at h
      simp only [Prod.mk.injEq, Except.ok.injEq] at h
      obtain ⟨h1, h2, -⟩ := h
      subst h1
      subst h2
      exact ⟨⟨[], by simp, by simp⟩, rfl, rfl, rfl, rfl⟩
    · cases haeb : archive_event_batch cfg r lastIds st batch with
      | error u =>
        cases u
        rw [archive_events_loop_batch_err hb haeb] at h
        exact absurd h (by simp)
      | ok st' =>
        obtain ⟨⟨tail, htail, hrid⟩, hro, hme, hde⟩ := archive_event_batch_shape haeb
        cases hstop : st'.stop_on_this_batch with
        | true =>
          rw [archive_events_loop_stop hb haeb hstop] at h
          simp only [Prod.mk.injEq, Except.ok.injEq] at h
          obtain ⟨h1, h2, -⟩ := h
          subst h1
          subst h2
          exact ⟨⟨tail, htail, hrid⟩, hro, hme, hde, rfl⟩
        | false =>
          cases hp : next_event_batch rest sErr with
          | error u =>
            cases u
            rw [archive_events_loop_pull_err hb haeb hstop hp] at h
            exact absurd h (by simp)
          | ok b2r2 =>
            obtain ⟨b2, r2⟩ := b2r2
            obtain ⟨hsum, -⟩ := next_event_batch_ok_inv hp
            rw [archive_events_loop_pull_ok hb haeb hstop hp] at h
            have hlen2 : r2.length + b2.length ≤ N := by
              have : b2.length + r2.length = rest.length := by
                rw [← hsum]
                simp
              have hb1 : 1 ≤ batch.length := by
                cases batch with
                | nil => exact absurd rfl hb
                | cons a l => simp
              omega
            obtain ⟨⟨tail2, htail2, hrid2⟩, ih2, ih3, ih4, ih5⟩ :=
              ih b2 r2 hlen2 st'.p st' sErr c' p' n h
            refine ⟨⟨tail ++ tail2, ?_, ?_⟩, ?_, ?_, ?_, ih5⟩
            · rw [htail2, htail, List.append_assoc]
            · intro row hrow
              rcases List.mem_append.mp hrow with hrow | hrow
              · exact hrid row hrow
              · exact hrid2 row hrow
            · rw [ih2, hro]
            · rw [ih3, hme]
            · rw [ih4, hde]

theorem next_event_batch_ok_eq {evs b2 r2 : List RawEvent} {sErr : Bool}
    (h : next_event_batch evs sErr = .ok (b2, r2)) :
    b2 = evs.take batch_size ∧ r2 = evs.drop batch_size := by
  simp only [next_event_batch] at h
  split at h
  · simp only [Except.ok.injEq, Prod.mk.injEq] at h
    exact ⟨h.1.symm, h.2.symm⟩
  · rename_i hlen
    rw [Nat.not_le] at hlen
    split at h
    · exact absurd h (by simp)
    · simp only [Except.ok.injEq, Prod.mk.injEq] at h
      refine ⟨?_, ?_⟩
      · rw [← h.1, List.take_of_length_le (Nat.le_of_lt hlen)]
      · rw [← h.2, List.drop_eq_nil_of_le (Nat.le_of_lt hlen)]

/-! ### Room-level lemmas -/

theorem archive_room_excluded {cfg : Config} {c p : Store} {room : RoomInput}
    (hex : room.room_id ∈ cfg.excluded_room_ids) :
    archive_room cfg c p room = (c, .ok p) := by
  simp only [archive_room]
  rw [if_pos hex]

theorem archive_room_eq {cfg : Config} {c p : Store} {room : RoomInput}
    {r0 : RoomRow} {pbase p2 : Store} {lastIds : List String}
    (hex : room.room_id ∉ cfg.excluded_room_ids)
    (hr : room_get_or_add cfg p room = (r0, pbase))
    (hm : add_members cfg r0 pbase room.joined_members = p2)
    (hl : last_event_ids_of p2 r0 = lastIds) :
    archive_room cfg c p room =
      match next_event_batch room.events room.streamError with
      | .error _ => (c, .error ())
      | .ok (event_batch, rest) =>
        match archive_events_loop cfg r0 lastIds c
            { p := p2, stop_on_this_batch := false, new_events_saved := 0 }
            event_batch rest room.streamError with
        | (c', .error _) => (c', .error ())
        | (c', .ok pn) => (c', .ok pn.1) := by
  simp only [archive_room, hr]
  rw [if_neg hex]
  simp only [hm, hl]

theorem archive_room_err {cfg : Config} {c p : Store} {room : RoomInput}
    {r0 : RoomRow} {pbase p2 : Store} {lastIds : List String}
    {b1 r1 : List RawEvent} {c1 : Store}
    (hex : room.room_id ∉ cfg.excluded_room_ids)
    (hr : room_get_or_add cfg p room = (r0, pbase))
    (hm : add_members cfg r0 pbase room.joined_members = p2)
    (hl : last_event_ids_of p2 r0 = lastIds)
    (hnb : next_event_batch room.events room.streamError = .ok (b1, r1))
    (hloop : archive_events_loop cfg r0 lastIds c
      { p := p2, stop_on_this_batch := false, new_events_saved := 0 }
      b1 r1 room.streamError = (c1, .error ())) :
    archive_room cfg c p room = (c1, .error ()) := by
  rw [archive_room_eq hex hr hm hl]
  simp only [hnb, hloop]

theorem archive_room_ok_facts {cfg : Config} {c p : Store} {room : RoomInput}
    {c' p' : Store}
    (hex : room.room_id ∉ cfg.excluded_room_ids)
    (h : archive_room cfg c p room = (c', .ok p')) :
    (∃ tail, p'.events = p.events ++ tail ∧
        ∀ row ∈ tail, row.room_id = room.room_id) ∧
      (∀ x ∈ p.rooms, x ∈ p'.rooms) ∧
      (∃ row ∈ p'.rooms, row.room_id = room.room_id) ∧
      (∀ x ∈ p.members, x ∈ p'.members) ∧
      (∀ m ∈ room.joined_members, ∃ row ∈ p'.members,
          row.room_id = room.room_id ∧ row.user_id = m.user_id) ∧
      p'.devices = p.devices ∧ c' = p' := by
  simp only [archive_room] at h
  rw [if_neg hex] at h
  cases hnb : next_event_batch room.events room.streamError with
  | error u =>
    simp only [hnb] at h
    simp at h
  | ok br =>
    obtain ⟨b1, r1⟩ := br
    simp only [hnb] at h
    cases hlp : archive_events_loop cfg (room_get_or_add cfg p room).1
        (last_event_ids_of
          (add_members cfg (room_get_or_add cfg p room).1
            (room_get_or_add cfg p room).2 room.joined_members)
          (room_get_or_add cfg p room).1) c
        { p := add_members cfg (room_get_or_add cfg p room).1
            (room_get_or_add cfg p room).2 room.joined_members,
          stop_on_this_batch := false, new_events_saved := 0 }
        b1 r1 room.streamError with
    | mk cl res =>
      cases res with
      | error u =>
        rw [hlp] at h
        simp at h
      | ok pn =>
        obtain ⟨pfin, nfin⟩ := pn
        rw [hlp] at h
        simp only [Prod.mk.injEq, Except.ok.injEq] at h
        obtain ⟨hc', hp'⟩ := h
        subst hc'
        subst hp'
        obtain ⟨⟨tail, htail, hrid⟩, hro, hme, hde, hcp⟩ :=
          archive_events_loop_ok_shape cfg _ _ (r1.length + b1.length) b1 r1
            le_rfl c _ room.streamError _ _ _ hlp
        obtain ⟨hrga_ev, hrga_me, hrga_de, -⟩ := room_get_or_add_frame cfg p room
        obtain ⟨ham_ev, ham_ro, ham_de, -⟩ :=
          add_members_frame cfg (room_get_or_add cfg p room).1
            (room_get_or_add cfg p room).2 room.joined_members
        have hrr : (room_get_or_add cfg p room).1.room_id = room.room_id :=
          room_get_or_add_room_id cfg p room
        refine ⟨⟨tail, ?_, ?_⟩, ?_, ?_, ?_, ?_, ?_, hcp⟩
        · rw [htail]
          simp only [ham_ev, hrga_ev]
        · intro row hrow
          rw [← hrr]
          exact hrid row hrow
        · intro x hx
          rw [hro, ham_ro]
          exact room_get_or_add_rooms_mem cfg p room x hx
        · obtain ⟨row, hrow, hrw⟩ := room_get_or_add_present cfg p room
          refine ⟨row, ?_, hrw⟩
          rw [hro, ham_ro]
          exact hrow
        · intro x hx
          rw [hme]
          refine add_members_mem cfg _ _ room.joined_members x ?_
          rw [hrga_me]
          exact hx
        · intro m hm
          obtain ⟨row, hrow, hr1, hr2⟩ :=
            add_members_present cfg (room_get_or_add cfg p room).1
              room.joined_members (room_get_or_add cfg p room).2 m hm
          refine ⟨row, ?_, ?_, hr2⟩
          · rw [hme]
            exact hrow
          · rw [hr1, hrr]
        · rw [hde, ham_de, hrga_de]

theorem archive_room_fresh {cfg : Config} {c p : Store} {room : RoomInput}
    {c' p' : Store}
    (hex : room.room_id ∉ cfg.excluded_room_ids)
    (hempty : roomEventsOf p room.room_id = [])
    (h : archive_room cfg c p room = (c', .ok p')) :
    p'.events = p.events ++ room.events.map (eventToRow cfg room.room_id) := by
  simp only [archive_room] at h
  rw [if_neg hex] at h
  obtain ⟨hrga_ev, hrga_me, hrga_de, -⟩ := room_get_or_add_frame cfg p room
  obtain ⟨ham_ev, ham_ro, ham_de, -⟩ :=
    add_members_frame cfg (room_get_or_add cfg p room).1
      (room_get_or_add cfg p room).2 room.joined_members
  have hrr : (room_get_or_add cfg p room).1.room_id = room.room_id :=
    room_get_or_add_room_id cfg p room
  have hli : last_event_ids_of
      (add_members cfg (room_get_or_add cfg p room).1
        (room_get_or_add cfg p room).2 room.joined_members)
      (room_get_or_add cfg p room).1 = [] := by
    simp only [last_event_ids_of, roomEventsOf, ham_ev, hrga_ev, hrr]
    have : p.events.filter (fun e => e.room_id == room.room_id) = [] := hempty
    rw [this]
    simp [order_by_ts_desc]
  rw [hli] at h
  cases hnb : next_event_batch room.events room.streamError with
  | error u =>
    simp only [hnb] at h
    simp at h
  | ok br =>
    obtain ⟨b1, r1⟩ := br
    simp only [hnb] at h
    obtain ⟨hsum, himp⟩ := next_event_batch_ok_inv hnb
    cases hlp : archive_events_loop cfg (room_get_or_add cfg p room).1 [] c
        { p := add_members cfg (room_get_or_add cfg p room).1
            (room_get_or_add cfg p room).2 room.joined_members,
          stop_on_this_batch := false, new_events_saved := 0 }
        b1 r1 room.streamError with
    | mk cl res =>
      cases res with
      | error u =>
        rw [hlp] at h
        simp at h
      | ok pn =>
        obtain ⟨pfin, nfin⟩ := pn
        rw [hlp] at h
        simp only [Prod.mk.injEq, Except.ok.injEq] at h
        obtain ⟨hc', hp'⟩ := h
        subst hc'
        subst hp'
        obtain ⟨hev, -, -, -, -⟩ :=
          archive_events_loop_all_new cfg _ (r1.length + b1.length) b1 r1
            le_rfl c _ room.streamError _ _ _ himp rfl hlp
        rw [hev, hsum]
        simp only [ham_ev, hrga_ev, hrr]

theorem archive_room_all_known {cfg : Config} {c p : Store} {room : RoomInput}
    (hex : room.room_id ∉ cfg.excluded_room_ids)
    (hroom : (Room.get p room.room_id).isSome)
    (hmem : ∀ m ∈ room.joined_members, ∃ row ∈ p.members,
      row.room_id = room.room_id ∧ row.user_id = m.user_id)
    (hev : roomEventsOf p room.room_id = room.events.map (eventToRow cfg room.room_id))
    (hts : List.Chain' (fun a b => b.origin_server_ts < a.origin_server_ts) room.events)
    (hse : room.streamError = false) :
    archive_room cfg c p room = (p, .ok p) := by
  simp only [archive_room]
  rw [if_neg hex]
  cases hg : Room.get p room.room_id with
  | none =>
    rw [hg] at hroom
    simp at hroom
  | some r =>
    have hrga : room_get_or_add cfg p room = (r, p) := by
      simp [room_get_or_add, hg]
    have hrr : r.room_id = room.room_id := by
      simp only [Room.get] at hg
      have := List.find?_some hg
      simpa [beq_iff_eq] using this
    have hm2 : add_members cfg r p room.joined_members = p := by
      apply add_members_skip
      intro m hm
      obtain ⟨row, hrow, h1, h2⟩ := hmem m hm
      apply List.find?_isSome.mpr
      exact ⟨row, hrow, by simp [h1, h2, hrr]⟩
    have hli : last_event_ids_of p r =
        (room.events.map (·.event_id)).take known_recent_window := by
      simp only [last_event_ids_of]
      rw [hrr, hev]
      rw [order_by_ts_desc_sorted_fix]
      · simp [List.map_take, List.map_map, Function.comp_def]
      · rw [List.chain'_map]
        simpa using hts
    rw [hrga]
    simp only [hm2, hli]
    have hnb : next_event_batch room.events room.streamError =
        .ok (room.events.take batch_size, room.events.drop batch_size) := by
      rw [hse]
      rcases Nat.lt_or_ge room.events.length batch_size with hlt | hge
      · rw [next_event_batch_small (Nat.le_of_lt hlt)]
        rw [List.take_of_length_le (le_of_lt hlt), List.drop_eq_nil_of_le (le_of_lt hlt)]
      · exact next_event_batch_full hge false
    simp only [hnb]
    by_cases hle : room.events = []
    · rw [hle]
      simp only [List.take_nil, List.drop_nil]
      rw [archive_events_loop_nil]
    · have hb1 : room.events.take batch_size ≠ [] := by
        intro hcon
        rcases List.take_eq_nil_iff.mp hcon with hx | hx
        · exact absurd hx (by simp [batch_size])
        · exact hle hx
      have hskip : ∀ e ∈ room.events.take batch_size,
          e.event_id ∈ (room.events.map (·.event_id)).take known_recent_window := by
        intro e he
        have hbw : batch_size = known_recent_window := rfl
        rw [← hbw, ← List.map_take]
        exact List.mem_map_of_mem _ he
      have haeb := @archive_event_batch_skip cfg r
        ((room.events.map (·.event_id)).take known_recent_window)
        ⟨p, false, 0⟩ (room.events.take batch_size) hskip
      rw [archive_events_loop_stop hb1 haeb (by simp [hb1])]

theorem filter_rows_self (cfg : Config) (rid : String) (l : List RawEvent) :
    (l.map (eventToRow cfg rid)).filter (fun e => e.room_id == rid) =
      l.map (eventToRow cfg rid) := by
  rw [List.filter_eq_self]
  intro a ha
  obtain ⟨e, -, rfl⟩ := List.mem_map.mp ha
  simp

theorem filter_rows_ne {rid rid' : String} (cfg : Config) (l : List RawEvent)
    (hne : rid ≠ rid') :
    (l.map (eventToRow cfg rid)).filter (fun e => e.room_id == rid') = [] := by
  rw [List.filter_eq_nil_iff]
  intro a ha
  obtain ⟨e, -, rfl⟩ := List.mem_map.mp ha
  simp [hne]

theorem rows_map_event_id (cfg : Config) (rid : String) (l : List RawEvent) :
    (l.map (eventToRow cfg rid)).map (·.event_id) = l.map (·.event_id) := by
  simp [List.map_map, Function.comp_def]

/-! ### Orchestrator-fold lemmas -/

theorem add_roomsAux_cons_err {cfg : Config} {c p : Store} {room : RoomInput}
    {rest : List RoomInput} {c1 : Store}
    (h : archive_room cfg c p room = (c1, .error ())) :
    add_roomsAux cfg c p (room :: rest) = (c1, .error ()) := by
  simp only [add_roomsAux, h]

theorem add_rooms_err {cfg : Config} {c : Store} {room : RoomInput}
    {rest : List RoomInput} {c1 : Store}
    (h : archive_room cfg c c room = (c1, .error ())) :
    add_rooms cfg c (room :: rest) = (c1, .error ()) := by
  simp only [add_rooms, add_roomsAux_cons_err h]

theorem add_roomsAux_ok_shape (cfg : Config) :
    ∀ (rooms : List RoomInput) (c p c' p' : Store),
      add_roomsAux cfg c p rooms = (c', .ok p') →
      (∃ tail, p'.events = p.events ++ tail ∧
          ∀ row ∈ tail, ∃ rm ∈ rooms, row.room_id = rm.room_id) ∧
        (∀ x ∈ p.rooms, x ∈ p'.rooms) ∧ (∀ x ∈ p.members, x ∈ p'.members) ∧
        p'.devices = p.devices := by
  intro rooms
  induction rooms with
  | nil =>
    intro c p c' p' h
    simp only [add_roomsAux, Prod.mk.injEq, Except.ok.injEq] at h
    obtain ⟨-, h2⟩ := h
    subst h2
    exact ⟨⟨[], by simp, by simp⟩, fun x hx => hx, fun x hx => hx, rfl⟩
  | cons room rest ih =>
    intro c p c' p' h
    simp only [add_roomsAux] at h
    cases har : archive_room cfg c p room with
    | mk c1 res =>
      cases res with
      | error u =>
        simp only [har] at h
        simp at h
      | ok p1 =>
        simp only [har] at h
        by_cases hex : room.room_id ∈ cfg.excluded_room_ids
        · rw [archive_room_excluded hex] at har
          simp only [Prod.mk.injEq, Except.ok.injEq] at har
          obtain ⟨h1, h2⟩ := har
          subst h1
          subst h2
          obtain ⟨⟨tail, htail, hrm⟩, hro, hme, hde⟩ := ih _ _ _ _ h
          exact ⟨⟨tail, htail, fun row hrow =>
            (hrm row hrow).elim fun rm hrm' => ⟨rm, by simp [hrm'.1], hrm'.2⟩⟩,
            hro, hme, hde⟩
        · obtain ⟨⟨tail1, hev1, hrid1⟩, hrom, -, hmem, -, hdev1, -⟩ :=
            archive_room_ok_facts hex har
          obtain ⟨⟨tail2, hev2, hrm2⟩, hro2, hme2, hde2⟩ := ih _ _ _ _ h
          refine ⟨⟨tail1 ++ tail2, ?_, ?_⟩, ?_, ?_, ?_⟩
          · rw [hev2, hev1, List.append_assoc]
          · intro row hrow
            rcases List.mem_append.mp hrow with hrow | hrow
            · exact ⟨room, by simp, hrid1 row hrow⟩
            · obtain ⟨rm, hrm, hid⟩ := hrm2 row hrow
              exact ⟨rm, by simp [hrm], hid⟩
          · exact fun x hx => hro2 x (hrom x hx)
          · exact fun x hx => hme2 x (hmem x hx)
          · rw [hde2, hdev1]

theorem add_roomsAux_run1 (cfg : Config) :
    ∀ (rooms : List RoomInput) (c p c' p' : Store),
      add_roomsAux cfg c p rooms = (c', .ok p') →
      (rooms.map (·.room_id)).Nodup →
      (∀ rm ∈ rooms, roomEventsOf p rm.room_id = []) →
      (∀ rm ∈ rooms, ∀ e ∈ rm.events, e.event_id ∉ p.events.map (·.event_id)) →
      ((rooms.map (fun rm => rm.events.map (·.event_id))).join).Nodup →
      (∀ rm ∈ rooms, rm.room_id ∉ cfg.excluded_room_ids →
        roomEventsOf p' rm.room_id = rm.events.map (eventToRow cfg rm.room_id) ∧
        (∃ row ∈ p'.rooms, row.room_id = rm.room_id) ∧
        (∀ m ∈ rm.joined_members, ∃ row ∈ p'.members,
          row.room_id = rm.room_id ∧ row.user_id = m.user_id)) ∧
      p'.devices = p.devices := by
  intro rooms
  induction rooms with
  | nil =>
    intro c p c' p' h _ _ _ _
    simp only [add_roomsAux, Prod.mk.injEq, Except.ok.injEq] at h
    obtain ⟨-, h2⟩ := h
    subst h2
    exact ⟨by simp, rfl⟩
  | cons room rest ih =>
    intro c p c' p' h h1 h2 h3 h4
    simp only [add_roomsAux] at h
    cases har : archive_room cfg c p room with
    | mk c1 res =>
      cases res with
      | error u =>
        simp only [har] at h
        simp at h
      | ok p1 =>
        simp only [har] at h
        by_cases hex : room.room_id ∈ cfg.excluded_room_ids
        · rw [archive_room_excluded hex] at har
          simp only [Prod.mk.injEq, Except.ok.injEq] at har
          obtain ⟨hq1, hq2⟩ := har
          subst hq1
          subst hq2
          obtain ⟨ihA, ihB⟩ := ih _ _ _ _ h (by simpa using h1.of_cons)
            (fun rm hm => h2 rm (by simp [hm]))
            (fun rm hm => h3 rm (by simp [hm]))
            (by
              simp only [List.map_cons, List.join_cons] at h4
              exact (List.nodup_append.mp h4).2.1)
          refine ⟨?_, ihB⟩
          intro rm hm hexm
          rcases List.mem_cons.mp hm with rfl | hm
          · exact absurd hex hexm
          · exact ihA rm hm hexm
        · have hfst : roomEventsOf p room.room_id = [] := h2 room (by simp)
          have hfr := archive_room_fresh hex hfst har
          obtain ⟨-, hrom, hroomPres, hmemMono, hmemPres, hdev1, -⟩ :=
            archive_room_ok_facts hex har
          have hRoomIdNotIn : room.room_id ∉ rest.map (·.room_id) := by
            have := h1
            simp only [List.map_cons, List.nodup_cons] at this
            exact this.1
          have hJoin := h4
          simp only [List.map_cons, List.join_cons] at hJoin
          have hJoinParts := List.nodup_append.mp hJoin
          have hp1ids : p1.events.map (·.event_id) =
              p.events.map (·.event_id) ++ room.events.map (·.event_id) := by
            rw [hfr, List.map_append, rows_map_event_id]
          obtain ⟨ihA, ihB⟩ := ih _ _ _ _ h (by simpa using h1.of_cons)
            (fun rm hm => by
              have hne : room.room_id ≠ rm.room_id := by
                intro hc
                exact hRoomIdNotIn (hc ▸ List.mem_map_of_mem (·.room_id) hm)
              simp only [roomEventsOf, hfr, List.filter_append]
              rw [show p.events.filter (fun e => e.room_id == rm.room_id) = []
                  from h2 rm (by simp [hm]),
                filter_rows_ne cfg room.events hne]
              rfl)
            (fun rm hm e he => by
              rw [hp1ids]
              simp only [List.mem_append]
              rintro (hc | hc)
              · exact h3 rm (by simp [hm]) e he hc
              · have hin : e.event_id ∈ (rest.map
                    (fun rm => rm.events.map (·.event_id))).join := by
                  apply List.mem_join.mpr
                  exact ⟨rm.events.map (·.event_id),
                    List.mem_map_of_mem _ hm, List.mem_map_of_mem _ he⟩
                exact hJoinParts.2.2 hc hin)
            hJoinParts.2.1
          obtain ⟨⟨tail2, hev2, hrm2⟩, hro2, hme2, hde2⟩ :=
            add_roomsAux_ok_shape cfg rest _ _ _ _ h
          refine ⟨?_, by rw [ihB, hdev1]⟩
          intro rm hm hexm
          rcases List.mem_cons.mp hm with rfl | hm
          · refine ⟨?_, ?_, ?_⟩
            · simp only [roomEventsOf, hev2, List.filter_append]
              rw [show p1.events.filter (fun e => e.room_id == rm.room_id) =
                  rm.events.map (eventToRow cfg rm.room_id) from by
                rw [hfr]
                simp only [List.filter_append]
                rw [show p.events.filter (fun e => e.room_id == rm.room_id) = []
                    from hfst, filter_rows_self]
                rfl]
              rw [show tail2.filter (fun e => e.room_id == rm.room_id) = []
                  from by
                rw [List.filter_eq_nil_iff]
                intro row hrow
                obtain ⟨rm', hrm', hid⟩ := hrm2 row hrow
                have hne : rm.room_id ≠ rm'.room_id := by
                  intro hc
                  exact hRoomIdNotIn (hc ▸ List.mem_map_of_mem (·.room_id) hrm')
                simp only [hid, beq_iff_eq, decide_eq_true_eq]
                exact fun hc => hne hc.symm]
              simp
            · obtain ⟨row, hrow, hid⟩ := hroomPres
              exact ⟨row, hro2 row hrow, hid⟩
            · intro m hmm
              obtain ⟨row, hrow, hidr, hidu⟩ := hmemPres m hmm
              exact ⟨row, hme2 row hrow, hidr, hidu⟩
          · exact ihA rm hm hexm

/-! ### Device lemmas -/

@[simp] theorem deviceToRow_user_id (cfg : Config) (d : DeviceInput) :
    (deviceToRow cfg d).user_id = d.user_id := rfl

@[simp] theorem deviceToRow_device_id (cfg : Config) (d : DeviceInput) :
    (deviceToRow cfg d).device_id = d.device_id := rfl

theorem add_devicesAux_fresh (cfg : Config) :
    ∀ (ds : List DeviceInput) (p : Store),
      (ds.map (·.device_id)).Nodup →
      (∀ d ∈ ds, d.device_id ∉ p.devices.map (·.device_id)) →
      add_devicesAux cfg p ds =
        .ok { p with devices := p.devices ++ ds.map (deviceToRow cfg) } := by
  intro ds
  induction ds with
  | nil =>
    intro p _ _
    simp only [add_devicesAux, List.map_nil, List.append_nil]
  | cons d rest ih =>
    intro p hnodup hfresh
    have hget : Device.get p d.user_id d.device_id = none := by
      cases hg : Device.get p d.user_id d.device_id with
      | none => rfl
      | some row =>
        have hrow := List.mem_of_find?_eq_some hg
        have hpr := List.find?_some hg
        simp only [Bool.and_eq_true, beq_iff_eq] at hpr
        exact absurd (hpr.2 ▸ List.mem_map_of_mem (·.device_id) hrow)
          (hfresh d (by simp))
    have hflush : deviceFlush p (deviceToRow cfg d) =
        .ok { p with devices := p.devices ++ [deviceToRow cfg d] } := by
      simp only [deviceFlush, deviceToRow_device_id]
      rw [if_neg (hfresh d (by simp))]
    simp only [add_devicesAux, hget, hflush]
    rw [ih _ (by simpa using hnodup.of_cons) (fun d' hd' => by
      simp only [List.map_append, List.mem_append]
      rintro (hc | hc)
      · exact hfresh d' (by simp [hd']) hc
      · simp only [List.map_cons, List.map_nil, List.mem_singleton,
          deviceToRow_device_id] at hc
        have := hnodup
        simp only [List.map_cons, List.nodup_cons] at this
        exact this.1 (hc ▸ List.mem_map_of_mem (·.device_id) hd'))]
    simp [List.append_assoc]

theorem add_devicesAux_all_present (cfg : Config) :
    ∀ (ds : List DeviceInput) (p : Store),
      (∀ d ∈ ds, (Device.get p d.user_id d.device_id).isSome) →
      add_devicesAux cfg p ds = .ok p := by
  intro ds
  induction ds with
  | nil =>
    intro p _
    rfl
  | cons d rest ih =>
    intro p h
    cases hg : Device.get p d.user_id d.device_id with
    | none => exact absurd (h d (by simp)) (by simp [hg])
    | some row =>
      simp only [add_devicesAux, hg]
      exact ih p (fun d' hd' => h d' (by simp [hd']))

/-! ### Window and file-lookup lemmas -/

theorem last_event_ids_sub {p : Store} {r : RoomRow} {x : String}
    (h : x ∈ last_event_ids_of p r) : x ∈ p.events.map (·.event_id) := by
  simp only [last_event_ids_of] at h
  obtain ⟨e, he, rfl⟩ := List.mem_map.mp h
  have h2 : e ∈ order_by_ts_desc (roomEventsOf p r.room_id) :=
    List.take_subset _ _ he
  rw [mem_order_by_ts_desc] at h2
  exact List.mem_map_of_mem _ (List.mem_of_mem_filter h2)

theorem File.get_congr {s t : Store} (u : String) (h : s.files = t.files) :
    File.get s u = File.get t u := by
  simp only [File.get, h]

theorem File.get_updateFile (s : Store) (u : String) (g : FileRow → FileRow)
    (hg : ∀ x, (g x).fetch_url_matrix = x.fetch_url_matrix) :
    File.get (updateFile s u g) u = (File.get s u).map g := by
  simp only [File.get, updateFile]
  induction s.files with
  | nil => rfl
  | cons f fs ih =>
    by_cases hf : (f.fetch_url_matrix == u) = true
    · have hgf : ((g f).fetch_url_matrix == u) = true := by
        rw [hg f]
        exact hf
      simp only [List.map_cons, if_pos hf]
      simp [List.find?_cons, hgf, hf]
    · have hf2 : (f.fetch_url_matrix == u) = false := by simpa using hf
      simp only [List.map_cons, if_neg hf]
      simp only [List.find?_cons, hf2]
      exact ih

/-! ### Attachment-step equations -/

theorem archive_file_refetch_ok {cfg : Config} {p : Store} {att : AttachmentContent}
    {f : FileRow} {code clen : Nat} {reason : String} {bytes : Bytes}
    (hfile : File.get p att.url = some f) (hunc : f.is_cached = false)
    (hfetch : cfg.fetch (cfg.get_download_url att.url) =
      .response code reason clen bytes)
    (hsize : clen < MAX_FILESIZE) :
    archive_file cfg p att = .ok (updateFile p att.url (fun x =>
      { x with
          data := some bytes
          last_fetch_status := toString code ++ " " ++ reason
          last_fetch_ts := cfg.now })) := by
  simp only [archive_file, hfile, hfetch, hunc]
  rw [if_pos hsize]
  simp

theorem archive_file_cached_ok {cfg : Config} {p : Store} {att : AttachmentContent}
    {f : FileRow}
    (hfile : File.get p att.url = some f) (hcached : f.is_cached = true) :
    archive_file cfg p att = .ok (updateFile p att.url (fun x =>
      { x with
          last_fetch_status := "Fail"
          last_fetch_ts := cfg.now })) := by
  simp only [archive_file, hfile, hcached]
  simp

/-! ### Unchanged-run lemma -/

theorem add_roomsAux_unchanged (cfg : Config) :
    ∀ (rooms : List RoomInput) (p : Store),
      (∀ rm ∈ rooms, archive_room cfg p p rm = (p, .ok p)) →
      add_roomsAux cfg p p rooms = (p, .ok p) := by
  intro rooms
  induction rooms with
  | nil =>
    intro p _
    rfl
  | cons room rest ih =>
    intro p h
    simp only [add_roomsAux, h room (by simp)]
    exact ih p (fun rm hm => h rm (by simp [hm]))

/-! ### Cache-coherence preservation -/

theorem fileFlushInsert_inv {p p' : Store} {row : FileRow} (hp : FilesInv p)
    (hrow : row.is_cached = true → row.data.isSome)
    (h : fileFlushInsert p row = .ok p') : FilesInv p' := by
  simp only [fileFlushInsert] at h
  split at h
  · exact absurd h (by simp)
  · simp only [Except.ok.injEq] at h
    subst h
    intro f hf hc
    rcases List.mem_append.mp hf with hf | hf
    · exact hp f hf hc
    · rw [List.mem_singleton] at hf
      subst hf
      exact hrow hc

theorem updateFile_inv {p : Store} {u : String} {g : FileRow → FileRow}
    (hp : FilesInv p)
    (hg : ∀ x, (x.is_cached = true → x.data.isSome) →
      ((g x).is_cached = true → (g x).data.isSome)) :
    FilesInv (updateFile p u g) := by
  intro f hf hc
  simp only [updateFile] at hf
  obtain ⟨x, hx, hfx⟩ := List.mem_map.mp hf
  by_cases hcond : (x.fetch_url_matrix == u) = true
  · rw [if_pos hcond] at hfx
    subst hfx
    exact hg x (hp x hx) hc
  · rw [if_neg hcond] at hfx
    subst hfx
    exact hp x hx hc

theorem archive_file_inv {cfg : Config} {p p' : Store} {att : AttachmentContent}
    (hp : FilesInv p) (h : archive_file cfg p att = .ok p') : FilesInv p' := by
  simp only [archive_file] at h
  cases hfe : File.get p att.url with
  | some f =>
    simp only [hfe] at h
    cases hcq : f.is_cached with
    | true =>
      simp only [hcq] at h
      simp only [Bool.not_true, Bool.false_eq_true, if_false, Option.isSome_none,
        Except.ok.injEq] at h
      subst h
      exact updateFile_inv hp (fun x hx hc => by simpa using hx (by simpa using hc))
    | false =>
      simp only [hcq, Bool.not_false, if_true] at h
      cases hfr : cfg.fetch (cfg.get_download_url att.url) with
      | netError =>
        simp only [hfr, Option.isSome_none, Except.ok.injEq] at h
        subst h
        exact updateFile_inv hp (fun x hx hc => by simpa using hx (by simpa using hc))
      | response code reason clen bytes =>
        simp only [hfr] at h
        by_cases hcl : clen < MAX_FILESIZE
        · rw [if_pos hcl] at h
          simp only [Option.isSome_some, if_true, Except.ok.injEq] at h
          subst h
          refine updateFile_inv hp (fun x hx hc => by simp)
        · rw [if_neg hcl] at h
          simp only [Option.isSome_none, Except.ok.injEq] at h
          subst h
          exact updateFile_inv hp (fun x hx hc => by simpa using hx (by simpa using hc))
  | none =>
    simp only [hfe] at h
    cases hfr : cfg.fetch (cfg.get_download_url att.url) with
    | netError =>
      simp only [hfr] at h
      refine fileFlushInsert_inv hp ?_ h
      intro hc
      simp at hc
    | response code reason clen bytes =>
      simp only [hfr] at h
      by_cases hcl : clen < MAX_FILESIZE
      · rw [if_pos hcl] at h
        refine fileFlushInsert_inv hp ?_ h
        intro _
        simp
      · rw [if_neg hcl] at h
        refine fileFlushInsert_inv hp ?_ h
        intro hc
        simp at hc

theorem archive_event_inv {cfg : Config} {r : RoomRow} {diff : List String}
    {st : BatchState} {e : RawEvent} {st1 : BatchState}
    (hp : FilesInv st.p) (h : archive_event cfg r diff st e = .ok st1) :
    FilesInv st1.p := by
  simp only [archive_event] at h
  split at h
  · simp only [Except.ok.injEq] at h
    subst h
    exact hp
  · cases hef : eventFlush st.p (eventToRow cfg r.room_id e) with
    | error u =>
      simp only [hef] at h
      exact absurd h (by simp)
    | ok p1 =>
      simp only [hef] at h
      obtain ⟨hp1, -⟩ := eventFlush_ok_inv hef
      have hp1inv : FilesInv p1 := by
        subst hp1
        exact fun f hf => hp f hf
      cases hca : e.content_attachment with
      | none =>
        simp only [hca, Except.ok.injEq] at h
        subst h
        exact hp1inv
      | some att =>
        simp only [hca] at h
        cases haf : archive_file cfg p1 att with
        | error u =>
          simp only [haf] at h
          exact absurd h (by simp)
        | ok p2 =>
          simp only [haf, Except.ok.injEq] at h
          subst h
          exact archive_file_inv hp1inv haf

theorem foldl_archive_event_inv {cfg : Config} {r : RoomRow} {diff : List String} :
    ∀ {batch : List RawEvent} {st st' : BatchState},
      batch.foldlM (archive_event cfg r diff) st = .ok st' →
      FilesInv st.p → FilesInv st'.p := by
  intro batch
  induction batch with
  | nil =>
    intro st st' h hp
    simp only [List.foldlM_nil] at h
    have hok : (Except.ok st : Except Unit BatchState) = .ok st' := h
    have hst : st = st' := by simpa using hok
    subst hst
    exact hp
  | cons e rest ih =>
    intro st st' h hp
    rw [List.foldlM_cons] at h
    obtain ⟨st1, h1, h2⟩ := except_bind_ok h
    exact ih h2 (archive_event_inv hp h1)

theorem archive_event_batch_inv {cfg : Config} {r : RoomRow}
    {lastIds : List String} {st st' : BatchState} {batch : List RawEvent}
    (hp : FilesInv st.p)
    (h : archive_event_batch cfg r lastIds st batch = .ok st') :
    FilesInv st'.p :=
  foldl_archive_event_inv h hp

theorem archive_events_loop_inv (cfg : Config) (r : RoomRow)
    (lastIds : List String) :
    ∀ (N : Nat) (batch rest : List RawEvent), rest.length + batch.length ≤ N →
      ∀ (c : Store) (st : BatchState) (sErr : Bool),
      FilesInv c → FilesInv st.p →
      FilesInv (archive_events_loop cfg r lastIds c st batch rest sErr).1 := by
  intro N
  induction N with
  | zero =>
    intro batch rest hlen c st sErr hc hst
    have hb : batch = [] := by
      cases batch with
      | nil => rfl
      | cons a l => simp at hlen
    subst hb
    rw [archive_events_loop_nil]
    exact hst
  | succ N ih =>
    intro batch rest hlen c st sErr hc hst
    by_cases hb : batch = []
    · subst hb
      rw [archive_events_loop_nil]
      exact hst
    · cases haeb : archive_event_batch cfg r lastIds st batch with
      | error u =>
        cases u
        rw [archive_events_loop_batch_err hb haeb]
        exact hc
      | ok st' =>
        have hst' : FilesInv st'.p := archive_event_batch_inv hst haeb
        cases hstop : st'.stop_on_this_batch with
        | true =>
          rw [archive_events_loop_stop hb haeb hstop]
          exact hst'
        | false =>
          cases hpl : next_event_batch rest sErr with
          | error u =>
            cases u
            rw [archive_events_loop_pull_err hb haeb hstop hpl]
            exact hc
          | ok b2r2 =>
            obtain ⟨b2, r2⟩ := b2r2
            obtain ⟨hsum, -⟩ := next_event_batch_ok_inv hpl
            rw [archive_events_loop_pull_ok hb haeb hstop hpl]
            have hlen2 : r2.length + b2.length ≤ N := by
              have : b2.length + r2.length = rest.length := by
                rw [← hsum]
                simp
              have hb1 : 1 ≤ batch.length := by
                cases batch with
                | nil => exact absurd rfl hb
                | cons a l => simp
              omega
            exact ih b2 r2 hlen2 st'.p st' sErr hst' hst'

theorem archive_room_inv {cfg : Config} {c p : Store} {room : RoomInput}
    (hc : FilesInv c) (hp : FilesInv p) :
    FilesInv (archive_room cfg c p room).1 ∧
      (∀ c' p', archive_room cfg c p room = (c', .ok p') → FilesInv p') := by
  by_cases hex : room.room_id ∈ cfg.excluded_room_ids
  · rw [archive_room_excluded hex]
    exact ⟨hc, fun c' p' h => by
      simp only [Prod.mk.injEq, Except.ok.injEq] at h
      rw [← h.2]
      exact hp⟩
  · have hp2 : FilesInv (add_members cfg (room_get_or_add cfg p room).1
        (room_get_or_add cfg p room).2 room.joined_members) := by
      obtain ⟨-, -, -, hfl⟩ :=
        add_members_frame cfg (room_get_or_add cfg p room).1
          (room_get_or_add cfg p room).2 room.joined_members
      obtain ⟨-, -, -, hfl2⟩ := room_get_or_add_frame cfg p room
      intro f hf
      exact hp f (by rw [hfl, hfl2] at hf; exact hf)
    simp only [archive_room]
    rw [if_neg hex]
    cases hnb : next_event_batch room.events room.streamError with
    | error u =>
      simp only [hnb]
      exact ⟨hc, fun c' p' h => by simp at h⟩
    | ok br =>
      obtain ⟨b1, r1⟩ := br
      simp only [hnb]
      have hloop := archive_events_loop_inv cfg (room_get_or_add cfg p room).1
        (last_event_ids_of
          (add_members cfg (room_get_or_add cfg p room).1
            (room_get_or_add cfg p room).2 room.joined_members)
          (room_get_or_add cfg p room).1)
        (r1.length + b1.length) b1 r1 le_rfl c
        ⟨add_members cfg (room_get_or_add cfg p room).1
          (room_get_or_add cfg p room).2 room.joined_members, false, 0⟩
        room.streamError hc hp2
      cases hlp : archive_events_loop cfg (room_get_or_add cfg p room).1
          (last_event_ids_of
            (add_members cfg (room_get_or_add cfg p room).1
              (room_get_or_add cfg p room).2 room.joined_members)
            (room_get_or_add cfg p room).1) c
          { p := add_members cfg (room_get_or_add cfg p room).1
              (room_get_or_add cfg p room).2 room.joined_members,
            stop_on_this_batch := false, new_events_saved := 0 }
          b1 r1 room.streamError with
      | mk cl res =>
        rw [hlp] at hloop
        cases res with
        | error u =>
          simp only [hlp]
          exact ⟨hloop, fun c' p' h => by simp at h⟩
        | ok pn =>
          obtain ⟨pfin, nfin⟩ := pn
          simp only [hlp]
          obtain ⟨-, -, -, -, hcp⟩ :=
            archive_events_loop_ok_shape cfg _ _ (r1.length + b1.length) b1 r1
              le_rfl c _ room.streamError _ _ _ hlp
          refine ⟨hloop, fun c' p' h => ?_⟩
          simp only [Prod.mk.injEq, Except.ok.injEq] at h
          rw [← h.2, ← hcp]
          exact hloop

theorem add_roomsAux_inv (cfg : Config) :
    ∀ (rooms : List RoomInput) (c p : Store),
      FilesInv c → FilesInv p →
      FilesInv (add_roomsAux cfg c p rooms).1 ∧
        (∀ c' p', add_roomsAux cfg c p rooms = (c', .ok p') → FilesInv p') := by
  intro rooms
  induction rooms with
  | nil =>
    intro c p hc hp
    refine ⟨hc, fun c' p' h => ?_⟩
    simp only [add_roomsAux, Prod.mk.injEq, Except.ok.injEq] at h
    rw [← h.2]
    exact hp
  | cons room rest ih =>
    intro c p hc hp
    obtain ⟨h1, h2⟩ := @archive_room_inv cfg c p room hc hp
    cases har : archive_room cfg c p room with
    | mk c1 res =>
      cases res with
      | error u =>
        cases u
        constructor
        · simp only [add_roomsAux, har]
          rw [har] at h1
          exact h1
        · intro c' p' h
          simp only [add_roomsAux, har] at h
          simp at h
      | ok p1 =>
        have hc1 : FilesInv c1 := by
          rw [har] at h1
          exact h1
        have hp1 : FilesInv p1 := h2 c1 p1 har
        obtain ⟨ih1, ih2⟩ := ih c1 p1 hc1 hp1
        constructor
        · simp only [add_roomsAux, har]
          exact ih1
        · intro c' p' h
          simp only [add_roomsAux, har] at h
          exact ih2 c' p' h

theorem add_devicesAux_ok_frame (cfg : Config) :
    ∀ (ds : List DeviceInput) (p p' : Store),
      add_devicesAux cfg p ds = .ok p' →
      p'.files = p.files ∧ p'.events = p.events ∧ p'.rooms = p.rooms ∧
        p'.members = p.members := by
  intro ds
  induction ds with
  | nil =>
    intro p p' h
    have hok : (Except.ok p : Except Unit Store) = .ok p' := h
    have hq : p = p' := by simpa using hok
    subst hq
    exact ⟨rfl, rfl, rfl, rfl⟩
  | cons d rest ih =>
    intro p p' h
    simp only [add_devicesAux] at h
    split at h
    · exact ih p p' h
    · cases hfl : deviceFlush p (deviceToRow cfg d) with
      | error u =>
        rw [hfl] at h
        exact absurd h (by simp)
      | ok p1 =>
        rw [hfl] at h
        have hp1 : p1.files = p.files ∧ p1.events = p.events ∧
            p1.rooms = p.rooms ∧ p1.members = p.members := by
          simp only [deviceFlush] at hfl
          split at hfl
          · exact absurd hfl (by simp)
          · simp only [Except.ok.injEq] at hfl
            subst hfl
            exact ⟨rfl, rfl, rfl, rfl⟩
        obtain ⟨f1, f2, f3, f4⟩ := ih p1 p' h
        exact ⟨f1.trans hp1.1, f2.trans hp1.2.1, f3.trans hp1.2.2.1,
          f4.trans hp1.2.2.2⟩

/-! ## Claim analyses -/

/-- C1 counterexample: the store holds an Attachment row for `mxc1` with
`is_cached = false` from a prior run, the next run's paginated stream
redelivers the event `E1` that references that content reference, and the
network would answer 200 OK — yet the run leaves the store completely
unchanged: because `E1` is already archived it is skipped before
attachment handling, so no download is re-attempted, `is_cached` stays
false and `data` stays empty, contradicting the claim. -/
theorem c1_counterexample :
    archive_room cfg200 storeUncached storeUncached roomStreamE1 =
        (storeUncached, .ok storeUncached) ∧
      storeUncached.files = [fileUncached] ∧
      fileUncached.is_cached = false ∧
      fileUncached.data = none ∧
      roomStreamE1.events = [evE1] ∧
      evE1.content_attachment = some att0 ∧
      rowE1 ∈ storeUncached.events ∧
      rowE1.event_id = evE1.event_id ∧
      cfg200.fetch (cfg200.get_download_url att0.url) =
        .response 200 "OK" 3 [1, 2, 3] ∧
      3 < MAX_FILESIZE := by
  refine ⟨?_, by decide⟩
  rw [archive_room_eq (by decide)
    (show room_get_or_add cfg200 storeUncached roomStreamE1 =
      (roomRow1, storeUncached) from rfl)
    (show add_members cfg200 roomRow1 storeUncached
      roomStreamE1.joined_members = storeUncached from rfl)
    (show last_event_ids_of storeUncached roomRow1 = ["E1"] from by decide)]
  have hnb : next_event_batch roomStreamE1.events false = .ok ([evE1], []) := by
    decide
  simp only [show roomStreamE1.streamError = false from rfl, hnb]
  have haeb : archive_event_batch cfg200 roomRow1 ["E1"]
      ⟨storeUncached, false, 0⟩ [evE1] = .ok ⟨storeUncached, true, 0⟩ := by
    decide
  rw [archive_events_loop_single haeb]

/-- C1 amended: the download of an uncached content reference is
re-attempted only when a not-yet-archived event referencing it is
persisted; on a successful under-ceiling fetch the row's `data` is
populated and `last_fetch_status`/`last_fetch_ts` record the success, but
`is_cached` is left false (only newly inserted rows ever get
`is_cached = true`). -/
theorem c1_amended {cfg : Config} {c p : Store} {room : RoomInput}
    {ev : RawEvent} {att : AttachmentContent} {f : FileRow} {code clen : Nat}
    {reason : String} {bytes : Bytes}
    (hex : room.room_id ∉ cfg.excluded_room_ids)
    (hstream : room.events = [ev])
    (hatt : ev.content_attachment = some att)
    (hfile : File.get p att.url = some f)
    (hunc : f.is_cached = false)
    (hfetch : cfg.fetch (cfg.get_download_url att.url) =
      .response code reason clen bytes)
    (hsize : clen < MAX_FILESIZE)
    (hfresh : ev.event_id ∉ p.events.map (·.event_id))
    (hse : room.streamError = false) :
    ∃ p', archive_room cfg c p room = (p', .ok p') ∧
      p'.events = p.events ++ [eventToRow cfg room.room_id ev] ∧
      File.get p' att.url = some
        { f with
            data := some bytes
            last_fetch_status := toString code ++ " " ++ reason
            last_fetch_ts := cfg.now } ∧
      ({ f with
          data := some bytes
          last_fetch_status := toString code ++ " " ++ reason
          last_fetch_ts := cfg.now }).is_cached = false := by
  simp only [archive_room]
  rw [if_neg hex]
  obtain ⟨hrga_ev, hrga_me, hrga_de, hrga_fl⟩ := room_get_or_add_frame cfg p room
  obtain ⟨ham_ev, ham_ro, ham_de, ham_fl⟩ :=
    add_members_frame cfg (room_get_or_add cfg p room).1
      (room_get_or_add cfg p room).2 room.joined_members
  have hrr : (room_get_or_add cfg p room).1.room_id = room.room_id :=
    room_get_or_add_room_id cfg p room
  have hp2ev : (add_members cfg (room_get_or_add cfg p room).1
      (room_get_or_add cfg p room).2 room.joined_members).events = p.events := by
    rw [ham_ev, hrga_ev]
  have hp2fl : (add_members cfg (room_get_or_add cfg p room).1
      (room_get_or_add cfg p room).2 room.joined_members).files = p.files := by
    rw [ham_fl, hrga_fl]
  have hevni : ev.event_id ∉ last_event_ids_of
      (add_members cfg (room_get_or_add cfg p room).1
        (room_get_or_add cfg p room).2 room.joined_members)
      (room_get_or_add cfg p room).1 := by
    intro hin
    have := last_event_ids_sub hin
    rw [hp2ev] at this
    exact hfresh this
  rw [hse]
  have hnb : next_event_batch room.events false = .ok ([ev], []) := by
    rw [hstream]
    exact next_event_batch_small (by simp [batch_size])
  simp only [hnb]
  have hdiffmem : ev.event_id ∈
      batchDiff [ev] (last_event_ids_of
        (add_members cfg (room_get_or_add cfg p room).1
          (room_get_or_add cfg p room).2 room.joined_members)
        (room_get_or_add cfg p room).1) :=
    (mem_batchDiff_iff (by simp)).mpr hevni
  have hef : eventFlush
      (add_members cfg (room_get_or_add cfg p room).1
        (room_get_or_add cfg p room).2 room.joined_members)
      (eventToRow cfg (room_get_or_add cfg p room).1.room_id ev) =
      .ok { (add_members cfg (room_get_or_add cfg p room).1
          (room_get_or_add cfg p room).2 room.joined_members) with
        events := (add_members cfg (room_get_or_add cfg p room).1
          (room_get_or_add cfg p room).2 room.joined_members).events ++
          [eventToRow cfg (room_get_or_add cfg p room).1.room_id ev] } := by
    simp only [eventFlush, eventToRow_event_id]
    rw [if_neg (by rw [hp2ev]; exact hfresh)]
  have hget2 : File.get { (add_members cfg (room_get_or_add cfg p room).1
      (room_get_or_add cfg p room).2 room.joined_members) with
        events := (add_members cfg (room_get_or_add cfg p room).1
          (room_get_or_add cfg p room).2 room.joined_members).events ++
          [eventToRow cfg (room_get_or_add cfg p room).1.room_id ev] }
      att.url = some f := by
    rw [File.get_congr att.url (by simpa using hp2fl)]
    exact hfile
  have hafr := archive_file_refetch_ok hget2 hunc hfetch hsize
  have haeb : archive_event_batch cfg (room_get_or_add cfg p room).1
      (last_event_ids_of
        (add_members cfg (room_get_or_add cfg p room).1
          (room_get_or_add cfg p room).2 room.joined_members)
        (room_get_or_add cfg p room).1)
      ⟨add_members cfg (room_get_or_add cfg p room).1
        (room_get_or_add cfg p room).2 room.joined_members, false, 0⟩ [ev] =
      .ok ⟨updateFile { (add_members cfg (room_get_or_add cfg p room).1
          (room_get_or_add cfg p room).2 room.joined_members) with
            events := (add_members cfg (room_get_or_add cfg p room).1
              (room_get_or_add cfg p room).2 room.joined_members).events ++
              [eventToRow cfg (room_get_or_add cfg p room).1.room_id ev] }
          att.url (fun x =>
            { x with
                data := some bytes
                last_fetch_status := toString code ++ " " ++ reason
                last_fetch_ts := cfg.now }), false, 1⟩ := by
    simp only [archive_event_batch, List.foldlM_cons, List.foldlM_nil,
      archive_event]
    rw [if_neg (not_not_intro hdiffmem)]
    simp only [hef, hatt, hafr]
    rfl
  rw [archive_events_loop_single haeb]
  refine ⟨_, rfl, ?_, ?_, by simp [hunc]⟩
  · obtain ⟨hue, -, -, -⟩ := updateFile_frame _ att.url _
    rw [hue]
    simp only [hp2ev, hrr]
  · rw [File.get_updateFile _ att.url (fun x =>
      { x with
          data := some bytes
          last_fetch_status := toString code ++ " " ++ reason
          last_fetch_ts := cfg.now }) (fun x => rfl), hget2]
    rfl

/-- C1 witness: the amended behaviour at a concrete input — a fresh event
`E2` referencing the failed `mxc1` row triggers the refetch; the row ends
with `data` populated and a success status but `is_cached` still false. -/
theorem c1_witness :
    ∃ p', archive_room cfg200 storeUncached storeUncached roomStreamE2 =
        (p', .ok p') ∧
      p'.events = storeUncached.events ++ [eventToRow cfg200 "r1" evE2] ∧
      File.get p' att0.url = some
        { fileUncached with
            data := some [1, 2, 3]
            last_fetch_status := toString 200 ++ " " ++ "OK"
            last_fetch_ts := 42 } ∧
      ({ fileUncached with
          data := some [1, 2, 3]
          last_fetch_status := toString 200 ++ " " ++ "OK"
          last_fetch_ts := 42 }).is_cached = false :=
  @c1_amended cfg200 storeUncached storeUncached roomStreamE2 evE2 att0
    fileUncached 200 3 "OK" [1, 2, 3] (by decide) (by decide) (by decide)
    (by decide) (by decide) (by decide) (by decide) (by decide) (by decide)

/-- C2 counterexample: with the failing room `rf` listed before the
healthy room `rg`, the whole run aborts with the committed store
unchanged — room `rg` is never processed (no Room row, no events),
contradicting the claim that the Orchestrator proceeds to the next
configured room. -/
theorem c2_counterexample :
    add_rooms cfg200 Store.empty [roomFail, roomGood] =
        (Store.empty, .error ()) ∧
      roomGood.room_id ∉ cfg200.excluded_room_ids ∧
      Store.empty.rooms = [] ∧ Store.empty.events = [] := by
  refine ⟨?_, by decide, rfl, rfl⟩
  have har : archive_room cfg200 Store.empty Store.empty roomFail =
      (Store.empty, .error ()) := by
    rw [archive_room_eq (by decide)
      (show room_get_or_add cfg200 Store.empty roomFail =
        (⟨"rf", "F", none, 42⟩, ⟨[⟨"rf", "F", none, 42⟩], [], [], [], []⟩)
        from rfl)
      (show add_members cfg200 ⟨"rf", "F", none, 42⟩
        ⟨[⟨"rf", "F", none, 42⟩], [], [], [], []⟩ roomFail.joined_members =
        ⟨[⟨"rf", "F", none, 42⟩], [], [], [], []⟩ from rfl)
      (show last_event_ids_of ⟨[⟨"rf", "F", none, 42⟩], [], [], [], []⟩
        ⟨"rf", "F", none, 42⟩ = [] from by decide)]
    rfl
  simp only [add_rooms, add_roomsAux, har]

/-- C2 amended: a pagination failure aborts the entire synchronization
run, not just the current room: the committed store stays exactly as it
was at the last commit, the failing room's uncommitted work is rolled
back, and no subsequent room is processed. -/
theorem c2_amended {cfg : Config} {c p : Store} {room : RoomInput}
    {rest : List RoomInput}
    (hex : room.room_id ∉ cfg.excluded_room_ids)
    (hlen : room.events.length < batch_size)
    (hse : room.streamError = true) :
    add_roomsAux cfg c p (room :: rest) = (c, .error ()) := by
  have har : archive_room cfg c p room = (c, .error ()) := by
    simp only [archive_room]
    rw [if_neg hex]
    have hnb : next_event_batch room.events room.streamError = .error () := by
      rw [hse]
      exact next_event_batch_err hlen
    simp only [hnb]
  exact add_roomsAux_cons_err har

/-- C2 witness: the amended behaviour at a concrete input — with any
committed store, the failing room aborts the fold and the healthy room
after it is never reached. -/
theorem c2_witness :
    add_roomsAux cfg200 Store.empty Store.empty (roomFail :: [roomGood]) =
      (Store.empty, .error ()) :=
  @c2_amended cfg200 Store.empty Store.empty roomFail [roomGood]
    (by decide) (by decide) (by decide)

/-- C6 counterexample: processing a fresh event that references the cached
`mxc1` row does skip the download, but it does not leave the row
untouched: the run overwrites `last_fetch_status` ("200 OK" becomes
"Fail") and bumps `last_fetch_ts` (5 becomes 42). -/
theorem c6_counterexample :
    (archive_room cfg200 storeCached storeCached roomStreamE2).2 =
        .ok ⟨storeCached.rooms, [], [],
          storeCached.events ++ [eventToRow cfg200 "r1" evE2],
          [⟨"f.txt", 3, some "text/plain", false, true, some [9], "http:mxc1",
            "mxc1", "Fail", 42, 1⟩]⟩ ∧
      storeCached.files = [fileCached] ∧
      fileCached.is_cached = true ∧
      fileCached.last_fetch_status = "200 OK" ∧
      fileCached.last_fetch_ts = 5 := by
  refine ⟨?_, by decide⟩
  rw [archive_room_eq (by decide)
    (show room_get_or_add cfg200 storeCached roomStreamE2 =
      (roomRow1, storeCached) from rfl)
    (show add_members cfg200 roomRow1 storeCached
      roomStreamE2.joined_members = storeCached from rfl)
    (show last_event_ids_of storeCached roomRow1 = ["E1"] from by decide)]
  have hnb : next_event_batch roomStreamE2.events false = .ok ([evE2], []) := by
    decide
  simp only [show roomStreamE2.streamError = false from rfl, hnb]
  have haeb : archive_event_batch cfg200 roomRow1 ["E1"]
      ⟨storeCached, false, 0⟩ [evE2] = .ok
      ⟨⟨[roomRow1], [], [], [rowE1, eventToRow cfg200 "r1" evE2],
        [⟨"f.txt", 3, some "text/plain", false, true, some [9], "http:mxc1",
          "mxc1", "Fail", 42, 1⟩]⟩, false, 1⟩ := by
    decide
  rw [archive_events_loop_single haeb]
  rfl

/-- C6 amended: for an event whose referenced Attachment row has
`is_cached = true`, the network is never consulted (the result is the same
for every oracle) and `data`, `is_cached` and the metadata fields are left
untouched, but `last_fetch_status` is overwritten with the initialized
failure descriptor "Fail" and `last_fetch_ts` with the current clock. -/
theorem c6_amended {cfg : Config} {p : Store} {att : AttachmentContent}
    {f : FileRow}
    (hfile : File.get p att.url = some f) (hcached : f.is_cached = true) :
    archive_file cfg p att = .ok (updateFile p att.url (fun x =>
        { x with last_fetch_status := "Fail", last_fetch_ts := cfg.now })) ∧
      File.get (updateFile p att.url (fun x =>
          { x with last_fetch_status := "Fail", last_fetch_ts := cfg.now }))
          att.url =
        some { f with last_fetch_status := "Fail", last_fetch_ts := cfg.now } := by
  refine ⟨archive_file_cached_ok hfile hcached, ?_⟩
  rw [File.get_updateFile _ att.url (fun x =>
    { x with last_fetch_status := "Fail", last_fetch_ts := cfg.now })
    (fun x => rfl), hfile]
  rfl

/-- C6 witness: the amended behaviour at the concrete cached store. -/
theorem c6_witness :
    archive_file cfg200 storeCached att0 = .ok (updateFile storeCached att0.url
        (fun x => { x with last_fetch_status := "Fail", last_fetch_ts := 42 })) ∧
      File.get (updateFile storeCached att0.url
          (fun x => { x with last_fetch_status := "Fail", last_fetch_ts := 42 }))
          att0.url =
        some { fileCached with last_fetch_status := "Fail", last_fetch_ts := 42 } :=
  @c6_amended cfg200 storeCached att0 fileCached (by decide) (by decide)

/-- C8: an attachment fetch whose remote-declared content length is at or
above `MAX_FILESIZE` never stores the downloaded bytes: every row keyed by
the content reference keeps `is_cached = false`, and the row's `data` is
exactly what it was before the attempt (`none` for a fresh row). -/
theorem c8_size_ceiling {cfg : Config} {p p' : Store} {att : AttachmentContent}
    {code clen : Nat} {reason : String} {bytes : Bytes}
    (hfetch : cfg.fetch (cfg.get_download_url att.url) =
      .response code reason clen bytes)
    (hsize : MAX_FILESIZE ≤ clen)
    (hunc : ∀ f ∈ p.files, f.fetch_url_matrix = att.url → f.is_cached = false)
    (h : archive_file cfg p att = .ok p') :
    (∀ f ∈ p'.files, f.fetch_url_matrix = att.url → f.is_cached = false) ∧
      (File.get p' att.url).map (·.data) =
        some (((File.get p att.url).map (·.data)).getD none) := by
  simp only [archive_file, hfetch] at h
  rw [if_neg (Nat.not_lt.mpr hsize)] at h
  cases hfe : File.get p att.url with
  | none =>
    simp only [hfe] at h
    simp only [fileFlushInsert] at h
    split at h
    · exact absurd h (by simp)
    · simp only [Except.ok.injEq] at h
      subst h
      have hnone := List.find?_eq_none.mp hfe
      constructor
      · intro f hf hurl
        rcases List.mem_append.mp hf with hf | hf
        · exact hunc f hf hurl
        · rw [List.mem_singleton] at hf
          subst hf
          rfl
      · simp only [File.get]
        rw [List.find?_append]
        rw [List.find?_eq_none.mpr ?_]
        · simp [File.get] at hfe
          simp [hfe]
        · intro x hx
          simpa using fun hc => by
            have := hnone x hx
            simp at this
            exact this hc
  | some f =>
    have hfc : f.is_cached = false :=
      hunc f (List.mem_of_find?_eq_some hfe)
        (by simpa [File.get, beq_iff_eq] using List.find?_some hfe)
    simp only [hfe, hfc] at h
    simp only [Bool.not_false, if_true, Option.isSome_none, Except.ok.injEq] at h
    subst h
    constructor
    · intro f' hf' hurl
      simp only [updateFile] at hf'
      obtain ⟨x, hx, hfx⟩ := List.mem_map.mp hf'
      by_cases hcond : (x.fetch_url_matrix == att.url) = true
      · rw [if_pos hcond] at hfx
        subst hfx
        exact hunc x hx (by simpa using hcond)
      · rw [if_neg hcond] at hfx
        subst hfx
        exact hunc x hx hurl
    · rw [File.get_updateFile p att.url (fun f =>
        { f with
            data := if false = true then none else f.data
            last_fetch_status := "Fail"
            last_fetch_ts := cfg.now }) (fun x => rfl), hfe]
      simp

/-- C8 witness: a fresh attachment whose declared length equals the
ceiling is rejected — the inserted row is uncached with empty data. -/
theorem c8_witness :
    (∀ f ∈ (⟨[], [], [], [],
        [⟨"f.txt", 3, some "text/plain", false, false, none, "http:mxc1",
          "mxc1", "Fail", 42, 42⟩]⟩ : Store).files,
        f.fetch_url_matrix = att0.url → f.is_cached = false) ∧
      (File.get (⟨[], [], [], [],
          [⟨"f.txt", 3, some "text/plain", false, false, none, "http:mxc1",
            "mxc1", "Fail", 42, 42⟩]⟩ : Store) att0.url).map (·.data) =
        some (((File.get Store.empty att0.url).map (·.data)).getD none) :=
  @c8_size_ceiling
    ⟨[], resolve0, fun _ => .response 200 "OK" MAX_FILESIZE [7], 42⟩
    Store.empty
    ⟨[], [], [], [],
      [⟨"f.txt", 3, some "text/plain", false, false, none, "http:mxc1",
        "mxc1", "Fail", 42, 42⟩]⟩
    att0 200 MAX_FILESIZE "OK" [7]
    (by decide) (by decide) (by decide) (by decide)

/-- C10: the known-recent comparison set is computed once before
pagination and never augmented, so when the stream delivers the same
unknown event ID twice, the second occurrence is not treated as a
duplicate to skip — its insert violates the `event_id` uniqueness
constraint and the room's processing raises an error (rolling back to the
committed store) instead of being a no-op. -/
theorem c10_duplicate_insert_error {cfg : Config} {c p : Store}
    {room : RoomInput} {e1 e2 : RawEvent}
    (hex : room.room_id ∉ cfg.excluded_room_ids)
    (hstream : room.events = [e1, e2])
    (hid : e2.event_id = e1.event_id)
    (hfresh : e1.event_id ∉ p.events.map (·.event_id))
    (hatt1 : e1.content_attachment = none)
    (hse : room.streamError = false) :
    archive_room cfg c p room = (c, .error ()) := by
  simp only [archive_room]
  rw [if_neg hex]
  obtain ⟨hrga_ev, -, -, -⟩ := room_get_or_add_frame cfg p room
  obtain ⟨ham_ev, -, -, -⟩ :=
    add_members_frame cfg (room_get_or_add cfg p room).1
      (room_get_or_add cfg p room).2 room.joined_members
  have hp2ev : (add_members cfg (room_get_or_add cfg p room).1
      (room_get_or_add cfg p room).2 room.joined_members).events = p.events := by
    rw [ham_ev, hrga_ev]
  have hni : e1.event_id ∉ last_event_ids_of
      (add_members cfg (room_get_or_add cfg p room).1
        (room_get_or_add cfg p room).2 room.joined_members)
      (room_get_or_add cfg p room).1 := by
    intro hin
    have := last_event_ids_sub hin
    rw [hp2ev] at this
    exact hfresh this
  have hnb : next_event_batch room.events room.streamError = .ok ([e1, e2], []) := by
    rw [hse, hstream]
    exact next_event_batch_small (by simp [batch_size])
  simp only [hnb]
  have hd1 : e1.event_id ∈ batchDiff [e1, e2]
      (last_event_ids_of
        (add_members cfg (room_get_or_add cfg p room).1
          (room_get_or_add cfg p room).2 room.joined_members)
        (room_get_or_add cfg p room).1) :=
    (mem_batchDiff_iff (by simp)).mpr hni
  have hd2 : e2.event_id ∈ batchDiff [e1, e2]
      (last_event_ids_of
        (add_members cfg (room_get_or_add cfg p room).1
          (room_get_or_add cfg p room).2 room.joined_members)
        (room_get_or_add cfg p room).1) :=
    (mem_batchDiff_iff (by simp)).mpr (by rw [hid]; exact hni)
  have hef1 : eventFlush
      (add_members cfg (room_get_or_add cfg p room).1
        (room_get_or_add cfg p room).2 room.joined_members)
      (eventToRow cfg (room_get_or_add cfg p room).1.room_id e1) =
      .ok { (add_members cfg (room_get_or_add cfg p room).1
          (room_get_or_add cfg p room).2 room.joined_members) with
        events := (add_members cfg (room_get_or_add cfg p room).1
          (room_get_or_add cfg p room).2 room.joined_members).events ++
          [eventToRow cfg (room_get_or_add cfg p room).1.room_id e1] } := by
    simp only [eventFlush, eventToRow_event_id]
    rw [if_neg (by rw [hp2ev]; exact hfresh)]
  have haeb : archive_event_batch cfg (room_get_or_add cfg p room).1
      (last_event_ids_of
        (add_members cfg (room_get_or_add cfg p room).1
          (room_get_or_add cfg p room).2 room.joined_members)
        (room_get_or_add cfg p room).1)
      ⟨add_members cfg (room_get_or_add cfg p room).1
        (room_get_or_add cfg p room).2 room.joined_members, false, 0⟩
      [e1, e2] = .error () := by
    simp only [archive_event_batch, List.foldlM_cons, List.foldlM_nil,
      archive_event]
    rw [if_neg (not_not_intro hd1)]
    simp only [hef1, hatt1]
    rw [except_ok_bind]
    rw [if_neg (not_not_intro hd2)]
    have : eventFlush { (add_members cfg (room_get_or_add cfg p room).1
        (room_get_or_add cfg p room).2 room.joined_members) with
          events := (add_members cfg (room_get_or_add cfg p room).1
            (room_get_or_add cfg p room).2 room.joined_members).events ++
            [eventToRow cfg (room_get_or_add cfg p room).1.room_id e1] }
        (eventToRow cfg (room_get_or_add cfg p room).1.room_id e2) =
        .error () := by
      simp only [eventFlush, eventToRow_event_id]
      rw [if_pos]
      simp [hid]
    simp only [this]
    rfl
  rw [archive_events_loop_batch_err (by simp) haeb]

/-- C10 witness: a concrete room delivering the unknown ID "X" twice makes
the run fail with the committed store intact. -/
theorem c10_witness :
    archive_room cfg200 Store.empty Store.empty roomDup =
      (Store.empty, .error ()) :=
  @c10_duplicate_insert_error cfg200 Store.empty Store.empty roomDup
    ⟨"X", "u", "m.room.message", 2, none⟩ ⟨"X", "u", "m.room.message", 1, none⟩
    (by decide) (by decide) (by decide) (by decide) (by decide) (by decide)

theorem evIdOf_injective : Function.Injective evIdOf := by
  intro i j h
  have h2 : List.replicate i 'a' = List.replicate j 'a' := congrArg String.data h
  have h3 := congrArg List.length h2
  simpa using h3

/-- C3: frontier correctness — when the store already holds exactly the
events of `oldE` for the room (all inside the known-recent window) and the
remote history arrives as `newE ++ oldE` (newest first, one batch), the
run persists exactly the rows of `newE`, in delivery order, and re-inserts
none of `oldE` (and touches no Attachment row). -/
theorem c3_frontier {cfg : Config} {c p : Store} {room : RoomInput}
    {newE oldE : List RawEvent}
    (hex : room.room_id ∉ cfg.excluded_room_ids)
    (hstream : room.events = newE ++ oldE)
    (hlen : room.events.length ≤ batch_size)
    (hnodup : (room.events.map (·.event_id)).Nodup)
    (hatt : ∀ e ∈ newE, e.content_attachment = none)
    (hold : (roomEventsOf p room.room_id).map (·.event_id) =
      oldE.map (·.event_id))
    (hwin : (roomEventsOf p room.room_id).length ≤ known_recent_window)
    (hfresh : ∀ e ∈ newE, e.event_id ∉ p.events.map (·.event_id))
    (hse : room.streamError = false) :
    ∃ p', archive_room cfg c p room = (p', .ok p') ∧
      p'.events = p.events ++ newE.map (eventToRow cfg room.room_id) ∧
      p'.files = p.files := by
  simp only [archive_room]
  rw [if_neg hex]
  obtain ⟨hrga_ev, hrga_me, hrga_de, hrga_fl⟩ := room_get_or_add_frame cfg p room
  obtain ⟨ham_ev, ham_ro, ham_de, ham_fl⟩ :=
    add_members_frame cfg (room_get_or_add cfg p room).1
      (room_get_or_add cfg p room).2 room.joined_members
  have hrr : (room_get_or_add cfg p room).1.room_id = room.room_id :=
    room_get_or_add_room_id cfg p room
  have hp2ev : (add_members cfg (room_get_or_add cfg p room).1
      (room_get_or_add cfg p room).2 room.joined_members).events = p.events := by
    rw [ham_ev, hrga_ev]
  have hp2fl : (add_members cfg (room_get_or_add cfg p room).1
      (room_get_or_add cfg p room).2 room.joined_members).files = p.files := by
    rw [ham_fl, hrga_fl]
  have hroomEv : roomEventsOf
      (add_members cfg (room_get_or_add cfg p room).1
        (room_get_or_add cfg p room).2 room.joined_members)
      (room_get_or_add cfg p room).1.room_id = roomEventsOf p room.room_id := by
    simp only [roomEventsOf, hp2ev, hrr]
  have hwiniff : ∀ x, (x ∈ last_event_ids_of
      (add_members cfg (room_get_or_add cfg p room).1
        (room_get_or_add cfg p room).2 room.joined_members)
      (room_get_or_add cfg p room).1 ↔ x ∈ oldE.map (·.event_id)) := by
    intro x
    simp only [last_event_ids_of, hroomEv]
    rw [List.take_of_length_le (by rw [length_order_by_ts_desc]; exact hwin)]
    constructor
    · intro hx
      obtain ⟨e, he, rfl⟩ := List.mem_map.mp hx
      rw [mem_order_by_ts_desc] at he
      rw [← hold]
      exact List.mem_map_of_mem _ he
    · intro hx
      rw [← hold] at hx
      obtain ⟨e, he, rfl⟩ := List.mem_map.mp hx
      exact List.mem_map_of_mem _ ((mem_order_by_ts_desc e _).mpr he)
  have hdisj : ∀ e ∈ newE, e.event_id ∉ oldE.map (·.event_id) := by
    have hnd := hnodup
    rw [hstream, List.map_append, List.nodup_append] at hnd
    intro e he hc
    exact hnd.2.2 (List.mem_map_of_mem _ he) hc
  have hattB : ∀ e ∈ room.events, e.event_id ∉ last_event_ids_of
      (add_members cfg (room_get_or_add cfg p room).1
        (room_get_or_add cfg p room).2 room.joined_members)
      (room_get_or_add cfg p room).1 → e.content_attachment = none := by
    intro e he hni
    rw [hstream] at he
    rcases List.mem_append.mp he with he | he
    · exact hatt e he
    · exact absurd ((hwiniff _).mpr (List.mem_map_of_mem _ he)) hni
  have hfreshB : ∀ e ∈ room.events, e.event_id ∉ last_event_ids_of
      (add_members cfg (room_get_or_add cfg p room).1
        (room_get_or_add cfg p room).2 room.joined_members)
      (room_get_or_add cfg p room).1 →
      e.event_id ∉ (add_members cfg (room_get_or_add cfg p room).1
        (room_get_or_add cfg p room).2 room.joined_members).events.map
        (·.event_id) := by
    intro e he hni
    rw [hstream] at he
    rcases List.mem_append.mp he with he | he
    · rw [hp2ev]
      exact hfresh e he
    · exact absurd ((hwiniff _).mpr (List.mem_map_of_mem _ he)) hni
  have haeb := @archive_event_batch_new cfg (room_get_or_add cfg p room).1
    (last_event_ids_of
      (add_members cfg (room_get_or_add cfg p room).1
        (room_get_or_add cfg p room).2 room.joined_members)
      (room_get_or_add cfg p room).1)
    ⟨add_members cfg (room_get_or_add cfg p room).1
      (room_get_or_add cfg p room).2 room.joined_members, false, 0⟩
    room.events hattB hnodup hfreshB
  have hfilter : room.events.filter (fun e => decide (e.event_id ∉
      last_event_ids_of
        (add_members cfg (room_get_or_add cfg p room).1
          (room_get_or_add cfg p room).2 room.joined_members)
        (room_get_or_add cfg p room).1)) = newE := by
    rw [hstream, List.filter_append]
    rw [List.filter_eq_self.mpr ?_, List.filter_eq_nil_iff.mpr ?_,
      List.append_nil]
    · intro e he
      simp only [decide_eq_true_eq, not_not]
      exact (hwiniff _).mpr (List.mem_map_of_mem _ he)
    · intro e he
      simp only [decide_eq_true_eq]
      exact fun hc => hdisj e he ((hwiniff _).mp hc)
  rw [hse]
  have hnb : next_event_batch room.events false = .ok (room.events, []) :=
    next_event_batch_small hlen
  simp only [hnb]
  rw [archive_events_loop_single haeb]
  refine ⟨_, rfl, ?_, ?_⟩
  · simp only [newRowsOf, hfilter, hp2ev, hrr]
  · exact hp2fl

/-- C3 witness: the spec's own ten-event instance — the store holds
e5..e1, the remote delivers [e10,...,e1], and the run persists exactly
e10..e6. -/
theorem c3_witness :
    ∃ p', archive_room cfg200 storeC3 storeC3 roomC3 = (p', .ok p') ∧
      p'.events = storeC3.events ++
        [c3Ev 10, c3Ev 9, c3Ev 8, c3Ev 7, c3Ev 6].map (eventToRow cfg200 "r3") ∧
      p'.files = storeC3.files :=
  @c3_frontier cfg200 storeC3 storeC3 roomC3
    [c3Ev 10, c3Ev 9, c3Ev 8, c3Ev 7, c3Ev 6]
    [c3Ev 5, c3Ev 4, c3Ev 3, c3Ev 2, c3Ev 1]
    (by decide) (by decide) (by decide) (by decide) (by decide) (by decide)
    (by decide) (by decide) (by decide)

/-- C4 counterexample: the room's stream delivers exactly one full batch
of 1000 fresh events and the request for the following batch fails; the
claim predicts the finished batch's writes are durably committed, but the
run ends with the committed store still empty — the `commit()` of source
line 333 runs only after the next `islice` pull, so the finished batch is
rolled back. -/
theorem c4_counterexample :
    add_rooms cfg200 Store.empty [roomBigStream] = (Store.empty, .error ()) := by
  have hlen : c4Events.length = batch_size := by
    simp [c4Events]
  have hb1 : c4Events ≠ [] := by
    intro hcon
    have h2 := congrArg List.length hcon
    rw [hlen] at h2
    simp [batch_size] at h2
  have hnodup : (c4Events.map (·.event_id)).Nodup := by
    simp only [c4Events, List.map_map]
    refine List.Nodup.map ?_ (List.nodup_range _)
    intro i j hij
    simp only [Function.comp_def, c4Event] at hij
    exact evIdOf_injective hij
  have hattn : ∀ e ∈ c4Events, e.event_id ∉ ([] : List String) →
      e.content_attachment = none := by
    intro e he _
    obtain ⟨i, -, rfl⟩ := List.mem_map.mp he
    rfl
  have hfr : ∀ e ∈ c4Events, e.event_id ∉ ([] : List String) →
      e.event_id ∉ store4.events.map (·.event_id) := by
    intro e _ _
    simp [store4]
  have hnoknown : ∀ e ∈ c4Events, e.event_id ∉ ([] : List String) := by
    intro e he
    simp
  have haeb := @archive_event_batch_new_nostop cfg200 roomRow4 []
    ⟨store4, false, 0⟩ c4Events hattn hnodup hfr rfl hnoknown
  have hevs : roomBigStream.events = c4Events := by
    simp only [roomBigStream]
  have hse4 : roomBigStream.streamError = true := by
    simp only [roomBigStream]
  have hnb : next_event_batch roomBigStream.events roomBigStream.streamError =
      .ok (c4Events, []) := by
    rw [hevs, hse4,
      next_event_batch_full (le_of_eq hlen.symm) true,
      List.take_of_length_le (le_of_eq hlen),
      List.drop_eq_nil_of_le (le_of_eq hlen)]
  have hloop : archive_events_loop cfg200 roomRow4 [] Store.empty
      ⟨store4, false, 0⟩ c4Events [] true = (Store.empty, .error ()) :=
    archive_events_loop_pull_err hb1 haeb rfl
      (next_event_batch_err (by decide))
  have har : archive_room cfg200 Store.empty Store.empty roomBigStream =
      (Store.empty, .error ()) :=
    archive_room_err (by decide)
      (show room_get_or_add cfg200 Store.empty roomBigStream =
        (roomRow4, store4) from rfl)
      (show add_members cfg200 roomRow4 store4 roomBigStream.joined_members =
        store4 from rfl)
      (show last_event_ids_of store4 roomRow4 = [] from rfl)
      hnb hloop
  exact add_rooms_err har

/-- C4 amended: all writes of one pulled batch commit together, but the
commit for a finished batch is issued only after the next `islice` pull
has succeeded; if requesting the following batch fails, the just-finished
batch's writes are rolled back to the last committed state, while a
successful pull does advance the committed store to include the finished
batch. -/
theorem c4_amended {cfg : Config} {r : RoomRow} {lastIds : List String}
    {c : Store} {st st' : BatchState} {batch rest : List RawEvent}
    (h : archive_event_batch cfg r lastIds st batch = .ok st')
    (hstop : st'.stop_on_this_batch = false)
    (hne : batch ≠ []) :
    (rest.length < batch_size →
      archive_events_loop cfg r lastIds c st batch rest true = (c, .error ())) ∧
      (∀ sErr, batch_size ≤ rest.length →
        archive_events_loop cfg r lastIds c st batch rest sErr =
          archive_events_loop cfg r lastIds st'.p st'
            (rest.take batch_size) (rest.drop batch_size) sErr) := by
  constructor
  · intro hlen
    exact archive_events_loop_pull_err hne h hstop (next_event_batch_err hlen)
  · intro sErr hge
    exact archive_events_loop_pull_ok hne h hstop (next_event_batch_full hge sErr)

/-- C4 witness: the amended behaviour at a concrete input — a finished
one-event batch is discarded when the next pull fails, leaving the
committed store empty. -/
theorem c4_witness :
    archive_events_loop cfg200 roomRow1 [] Store.empty ⟨Store.empty, false, 0⟩
      [evW] [] true = (Store.empty, .error ()) :=
  (@c4_amended cfg200 roomRow1 [] Store.empty ⟨Store.empty, false, 0⟩
    ⟨⟨[], [], [], [⟨"r1", none, "u", "m.room.message", "W1", 1, 42⟩], []⟩,
      false, 1⟩ [evW] []
    (by decide) (by decide) (by decide)).1 (by decide)

/-- C5: boundary-batch completeness — when a pulled batch contains a known
event ID, every unknown-ID event of that batch is still persisted, in the
batch's original delivery order, the batch is terminal, and no further
batch is pulled: the loop's result does not depend on the remaining stream
or on whether a later pagination request would fail. -/
theorem c5_boundary_batch {cfg : Config} {r : RoomRow} {lastIds : List String}
    {c : Store} {st : BatchState} {batch rest : List RawEvent} {sErr : Bool}
    (hnodup : (batch.map (·.event_id)).Nodup)
    (hatt : ∀ e ∈ batch, e.event_id ∉ lastIds → e.content_attachment = none)
    (hfresh : ∀ e ∈ batch, e.event_id ∉ lastIds →
      e.event_id ∉ st.p.events.map (·.event_id))
    (hknown : ∃ e ∈ batch, e.event_id ∈ lastIds)
    (hunknown : ∃ e ∈ batch, e.event_id ∉ lastIds)
    (hstop0 : st.stop_on_this_batch = false) :
    archive_events_loop cfg r lastIds c st batch rest sErr =
      ({ st.p with
          events := st.p.events ++ newRowsOf cfg r.room_id lastIds batch },
        .ok ({ st.p with
            events := st.p.events ++ newRowsOf cfg r.room_id lastIds batch },
          st.new_events_saved +
            (newRowsOf cfg r.room_id lastIds batch).length)) := by
  have haeb := @archive_event_batch_new cfg r lastIds st batch hatt hnodup hfresh
  have hne : batch ≠ [] := by
    obtain ⟨e, he, -⟩ := hknown
    intro hcon
    rw [hcon] at he
    simp at he
  have hstop : (⟨{ st.p with
      events := st.p.events ++ newRowsOf cfg r.room_id lastIds batch },
      st.stop_on_this_batch || batch.any (fun e => decide (e.event_id ∈ lastIds)),
      st.new_events_saved + (newRowsOf cfg r.room_id lastIds batch).length⟩ :
      BatchState).stop_on_this_batch = true := by
    simp only [hstop0, Bool.false_or]
    rw [List.any_eq_true]
    obtain ⟨e, he, hin⟩ := hknown
    exact ⟨e, he, by simpa using hin⟩
  rw [archive_events_loop_stop hne haeb hstop]

/-- C5 witness: a three-event boundary batch [N1, K1, N2] with K1 already
known persists N1 and N2 (in order, around the skipped K1) and never pulls
the poisoned remainder of the stream. -/
theorem c5_witness :
    archive_events_loop cfg200 roomRow1 ["K1"] Store.empty
        ⟨Store.empty, false, 0⟩
        [⟨"N1", "u", "m.room.message", 3, none⟩,
          ⟨"K1", "u", "m.room.message", 2, none⟩,
          ⟨"N2", "u", "m.room.message", 1, none⟩] [evW] true =
      (⟨[], [], [],
          [⟨"r1", none, "u", "m.room.message", "N1", 3, 42⟩,
            ⟨"r1", none, "u", "m.room.message", "N2", 1, 42⟩], []⟩,
        .ok (⟨[], [], [],
            [⟨"r1", none, "u", "m.room.message", "N1", 3, 42⟩,
              ⟨"r1", none, "u", "m.room.message", "N2", 1, 42⟩], []⟩, 2)) := by
  rw [@c5_boundary_batch cfg200 roomRow1 ["K1"] Store.empty
    ⟨Store.empty, false, 0⟩
    [⟨"N1", "u", "m.room.message", 3, none⟩,
      ⟨"K1", "u", "m.room.message", 2, none⟩,
      ⟨"N2", "u", "m.room.message", 1, none⟩] [evW] true
    (by decide) (by decide) (by decide) (by decide) (by decide) (by decide)]
  decide

/-- C7 counterexample: starting from the uncached `mxc1` row, a run whose
stream delivers the fresh event `E2` refetches the attachment successfully
— the resulting row has `data` populated and `last_fetch_status`
recording the success, yet `is_cached` is still false, so the claimed
"if and only if" fails in the only-if-missing direction. -/
theorem c7_counterexample :
    (archive_room cfg200 storeUncached storeUncached roomStreamE2).2 =
        .ok ⟨storeUncached.rooms, [], [],
          storeUncached.events ++ [eventToRow cfg200 "r1" evE2],
          [⟨"f.txt", 3, some "text/plain", false, false, some [1, 2, 3],
            "http:mxc1", "mxc1", "200 OK", 42, 1⟩]⟩ ∧
      (⟨"f.txt", 3, some "text/plain", false, false, some [1, 2, 3],
        "http:mxc1", "mxc1", "200 OK", 42, 1⟩ : FileRow).is_cached = false ∧
      (⟨"f.txt", 3, some "text/plain", false, false, some [1, 2, 3],
        "http:mxc1", "mxc1", "200 OK", 42, 1⟩ : FileRow).data = some [1, 2, 3] := by
  refine ⟨?_, rfl, rfl⟩
  rw [archive_room_eq (by decide)
    (show room_get_or_add cfg200 storeUncached roomStreamE2 =
      (roomRow1, storeUncached) from rfl)
    (show add_members cfg200 roomRow1 storeUncached
      roomStreamE2.joined_members = storeUncached from rfl)
    (show last_event_ids_of storeUncached roomRow1 = ["E1"] from by decide)]
  have hnb : next_event_batch roomStreamE2.events false = .ok ([evE2], []) := by
    decide
  simp only [show roomStreamE2.streamError = false from rfl, hnb]
  have haeb : archive_event_batch cfg200 roomRow1 ["E1"]
      ⟨storeUncached, false, 0⟩ [evE2] = .ok
      ⟨⟨[roomRow1], [], [], [rowE1, eventToRow cfg200 "r1" evE2],
        [⟨"f.txt", 3, some "text/plain", false, false, some [1, 2, 3],
          "http:mxc1", "mxc1", "200 OK", 42, 1⟩]⟩, false, 1⟩ := by
    decide
  rw [archive_events_loop_single haeb]
  rfl

/-- C7 amended: the direction of the cache-coherence invariant the code
does maintain — after any full archiving run starting from a store in
which every `is_cached = true` row has non-null `data`, every Attachment
row of the resulting committed store still satisfies
`is_cached = true → data` populated (the converse is not maintained, as a
successfully refetched row keeps `is_cached = false`). -/
theorem c7_amended {cfg : Config} {c : Store} {devs : List DeviceInput}
    {rooms : List RoomInput} (hc : FilesInv c) :
    FilesInv (run_archiver cfg c devs rooms).1 := by
  simp only [run_archiver]
  cases hda : add_devicesAux cfg c devs with
  | error u =>
    cases u
    simp only [add_devices, hda]
    exact hc
  | ok p =>
    have hpfl : p.files = c.files := (add_devicesAux_ok_frame cfg devs c p hda).1
    have hp : FilesInv p := by
      intro f hf
      exact hc f (by rw [hpfl] at hf; exact hf)
    simp only [add_devices, hda]
    obtain ⟨h1, h2⟩ := add_roomsAux_inv cfg rooms p p hp hp
    cases hra : add_roomsAux cfg p p rooms with
    | mk c1 res =>
      cases res with
      | error u =>
        cases u
        simp only [add_rooms, hra]
        rw [hra] at h1
        exact h1
      | ok p1 =>
        simp only [add_rooms, hra]
        exact h2 c1 p1 hra

/-- C7 witness: the amended invariant at a concrete input — the full run
on the empty store preserves cache coherence. -/
theorem c7_witness :
    FilesInv (run_archiver cfg200 Store.empty [devW] [roomW9]).1 :=
  @c7_amended cfg200 Store.empty [devW] [roomW9]
    (by intro f hf; simp [Store.empty] at hf)

theorem run_archiver_W9 :
    run_archiver cfg200 Store.empty [devW] [roomW9] = (S1W, .ok ()) := by
  have har : archive_room cfg200 ⟨[], [], [devRowW], [], []⟩
      ⟨[], [], [devRowW], [], []⟩ roomW9 = (S1W, .ok S1W) := by
    rw [archive_room_eq (by decide)
      (show room_get_or_add cfg200 ⟨[], [], [devRowW], [], []⟩ roomW9 =
        (⟨"r9", "R9", some "t", 42⟩,
          ⟨[⟨"r9", "R9", some "t", 42⟩], [], [devRowW], [], []⟩) from rfl)
      (show add_members cfg200 ⟨"r9", "R9", some "t", 42⟩
        ⟨[⟨"r9", "R9", some "t", 42⟩], [], [devRowW], [], []⟩
        roomW9.joined_members =
        ⟨[⟨"r9", "R9", some "t", 42⟩], [⟨"r9", "alice", "u1", none, 42⟩],
          [devRowW], [], []⟩ from rfl)
      (show last_event_ids_of
        ⟨[⟨"r9", "R9", some "t", 42⟩], [⟨"r9", "alice", "u1", none, 42⟩],
          [devRowW], [], []⟩ ⟨"r9", "R9", some "t", 42⟩ = [] from rfl)]
    have hnb : next_event_batch roomW9.events false =
        .ok ([⟨"A2", "u1", "m.room.message", 20, none⟩,
          ⟨"A1", "u1", "m.room.message", 10, none⟩], []) := by decide
    simp only [show roomW9.streamError = false from rfl, hnb]
    have haeb : archive_event_batch cfg200 ⟨"r9", "R9", some "t", 42⟩ []
        ⟨⟨[⟨"r9", "R9", some "t", 42⟩], [⟨"r9", "alice", "u1", none, 42⟩],
          [devRowW], [], []⟩, false, 0⟩
        [⟨"A2", "u1", "m.room.message", 20, none⟩,
          ⟨"A1", "u1", "m.room.message", 10, none⟩] =
        .ok ⟨S1W, false, 2⟩ := by decide
    rw [archive_events_loop_single haeb]
  have hD1 : add_devicesAux cfg200 Store.empty [devW] =
      .ok ⟨[], [], [devRowW], [], []⟩ := by decide
  simp only [run_archiver, add_devices, hD1, add_rooms, add_roomsAux, har]

/-- C9: idempotence — for a well-formed remote source (duplicate-free
device IDs, room IDs and event IDs; per-room streams newest-first; no
pagination failures), if the first full synchronization from the empty
store commits `S1`, then a second full synchronization against the same
unchanged source maps `S1` to exactly `S1`: zero new rows in any of the
five tables. -/
theorem c9_idempotence {cfg : Config} {devs : List DeviceInput}
    {rooms : List RoomInput} {S1 : Store}
    (hdev : (devs.map (·.device_id)).Nodup)
    (hrid : (rooms.map (·.room_id)).Nodup)
    (hjoin : ((rooms.map (fun rm => rm.events.map (·.event_id))).join).Nodup)
    (hts : ∀ rm ∈ rooms, List.Chain'
      (fun a b => b.origin_server_ts < a.origin_server_ts) rm.events)
    (hse : ∀ rm ∈ rooms, rm.streamError = false)
    (h1 : run_archiver cfg Store.empty devs rooms = (S1, .ok ())) :
    run_archiver cfg S1 devs rooms = (S1, .ok ()) := by
  have hD1 : add_devicesAux cfg Store.empty devs =
      .ok { Store.empty with
        devices := Store.empty.devices ++ devs.map (deviceToRow cfg) } :=
    add_devicesAux_fresh cfg devs Store.empty hdev
      (by intro d _; simp [Store.empty])
  simp only [run_archiver, add_devices, hD1] at h1
  cases hR1 : add_roomsAux cfg
      { Store.empty with
        devices := Store.empty.devices ++ devs.map (deviceToRow cfg) }
      { Store.empty with
        devices := Store.empty.devices ++ devs.map (deviceToRow cfg) }
      rooms with
  | mk c1 res =>
    cases res with
    | error u =>
      simp only [add_rooms, hR1] at h1
      simp at h1
    | ok p =>
      simp only [add_rooms, hR1] at h1
      have hpS1 : p = S1 := by simpa using h1
      subst hpS1
      obtain ⟨hfacts, hdevs⟩ := add_roomsAux_run1 cfg rooms
        { Store.empty with
          devices := Store.empty.devices ++ devs.map (deviceToRow cfg) }
        { Store.empty with
          devices := Store.empty.devices ++ devs.map (deviceToRow cfg) }
        c1 p hR1 hrid (by intro rm _; rfl) (by intro rm _ e _; simp [Store.empty])
        hjoin
      have hdevpres : ∀ d ∈ devs, (Device.get p d.user_id d.device_id).isSome := by
        intro d hd
        have hin : deviceToRow cfg d ∈ devs.map (deviceToRow cfg) :=
          List.mem_map_of_mem _ hd
        simp only [Device.get]
        apply List.find?_isSome.mpr
        refine ⟨deviceToRow cfg d, ?_, by simp⟩
        rw [hdevs]
        simpa [Store.empty] using hin
      have hD2 : add_devicesAux cfg p devs = .ok p :=
        add_devicesAux_all_present cfg devs p hdevpres
      have harm : ∀ rm ∈ rooms, archive_room cfg p p rm = (p, .ok p) := by
        intro rm hm
        by_cases hex : rm.room_id ∈ cfg.excluded_room_ids
        · exact archive_room_excluded hex
        · obtain ⟨hev, ⟨row, hrow, hrid2⟩, hmem⟩ := hfacts rm hm hex
          refine archive_room_all_known hex ?_ hmem hev (hts rm hm) (hse rm hm)
          simp only [Room.get]
          apply List.find?_isSome.mpr
          exact ⟨row, hrow, by simp [hrid2]⟩
      have hR2 : add_roomsAux cfg p p rooms = (p, .ok p) :=
        add_roomsAux_unchanged cfg rooms p harm
      simp only [run_archiver, add_devices, hD2, add_rooms, hR2]

/-- C9 witness: the idempotence theorem at a concrete input — the second
run over the device list `[devW]` and room list `[roomW9]` leaves the
committed store `S1W` of the first run unchanged. -/
theorem c9_witness :
    run_archiver cfg200 S1W [devW] [roomW9] = (S1W, .ok ()) :=
  @c9_idempotence cfg200 [devW] [roomW9] S1W (by decide) (by decide)
    (by decide) (by simp [roomW9, List.chain'_cons]) (by decide) run_archiver_W9

end MatrixArchiver
